import Mathlib

/-!
# Verification of the Haiku interpreter

A shallow embedding, in Lean 4, of the Haiku HTTP-request DSL interpreter
(repository `LingHeChen/haiku`), covering the components that the checked
claims are about:

* the indentation-sensitive lexer (source file `src/unnamed/part_002`,
  package `lexer`): INDENT/DEDENT synthesis and the token scanner;
* the tree-walking evaluator (source file `src/unnamed/part_004`, package
  `eval`): scopes, type inference, string interpolation, variable/response
  resolution, comparison, request synthesis, sequential and parallel loops,
  timeout parsing;
* the v2 recursive-descent parser (source file `src/parser/parser_v2.go`).

Conventions of the embedding:

* Go `interface{}` values are modelled by the closed sum type `Value`;
  Go `int64` is `Int` (the claims do not exercise wrap-around), Go `float64`
  is `Rat` (exact where the claims' concrete decimals are exact; IEEE
  rounding, infinities and NaN are outside the model and are noted at the
  definitions that touch them), Go `time.Duration` is an `Int` count of
  nanoseconds.
* Go maps that the program builds (`map[string]interface{}`) are modelled as
  insertion-ordered association lists with replace-on-rewrite; Go's
  nondeterministic map iteration order is modelled as list order and noted
  where it matters.
* Mutable state (`*Evaluator`, `*Scope`, `*Lexer`) is threaded explicitly:
  each Go method that mutates its receiver becomes a function returning the
  updated state.
* External collaborators (the OS environment, the file system, the JSON
  codec, the import parser hook and the request-execution callback) are
  uninterpreted functions carried in an `Externals` record / in the
  evaluator state, exactly as the spec's §6 declares them external.
* Go's unbounded recursion is modelled with an explicit fuel parameter where
  the recursion is not structural; running out of fuel returns a dedicated
  error / signal that the theorems treat like any other abort.
-/

namespace Haiku

/-- The interpreter's dynamically-typed runtime value
(`interface{}` in the Go evaluator): string, 64-bit integer, float,
bool, null, ordered list, ordered key-value mapping, or a
`time.Duration` (produced by timeout handling). -/
inductive Value where
  | vNull : Value
  | vBool (b : Bool) : Value
  | vInt (n : Int) : Value
  | vFloat (q : Rat) : Value
  | vStr (s : String) : Value
  | vList (xs : List Value) : Value
  | vMap (entries : List (String × Value)) : Value
  | vDur (ns : Int) : Value
deriving Repr

/-- ASCII decimal digit test (`isDigit` in the lexer, and the digit
classification used by `strconv`). -/
def isDigitChar (c : Char) : Bool :=
  '0' ≤ c && c ≤ '9'

/-- Numeric value of a list of ASCII digits, most significant first. -/
def digitsVal (ds : List Char) : Nat :=
  ds.foldl (fun acc c => acc * 10 + (c.toNat - 48)) 0

/-- Splits an optional leading `+`/`-` sign off a character list
(`strconv`'s sign handling). -/
def splitSign : List Char → Bool × List Char
  | [] => (false, [])
  | c :: rest =>
    if c = '+' then (false, rest)
    else if c = '-' then (true, rest)
    else (false, c :: rest)

/-- Model of Go `strconv.ParseInt(s, 10, 64)` restricted to its success
set: an optional sign followed by one or more ASCII digits denoting a
value in the `int64` range.  Out-of-range input makes `ParseInt` return a
non-nil error, which every caller in the interpreter treats as failure,
so it is `none` here. -/
def parseInt64 (s : String) : Option Int :=
  let p := splitSign s.data
  let neg := p.1
  let ds := p.2
  if ds.isEmpty || !(ds.all isDigitChar) then none
  else
    let v : Int := if neg then -(digitsVal ds : Int) else (digitsVal ds : Int)
    if -(2 ^ 63) ≤ v ∧ v ≤ 2 ^ 63 - 1 then some v else none

/-- Largest finite `float64`, `(2^53 - 1) * 2^971`, as a rational. -/
def maxFloat64 : Rat := ((2 ^ 53 - 1) * 2 ^ 971 : Int)

/-- Parses an optional exponent part `([eE][+-]?digits)?` of a decimal
float literal; returns the exponent and the remaining characters, or
`none` when an `e` is present but not followed by digits. -/
def parseExpPart : List Char → Option (Int × List Char)
  | [] => some (0, [])
  | c :: r =>
    if c = 'e' || c = 'E' then
      let q := splitSign r
      let ed := q.2.takeWhile isDigitChar
      let rest := q.2.drop ed.length
      if ed.isEmpty then none
      else some (if q.1 then -(digitsVal ed : Int) else (digitsVal ed : Int), rest)
    else some (0, c :: r)

/-- Model of Go `strconv.ParseFloat(s, 64)` restricted to finite decimal
literals: optional sign, digits with an optional fractional part (at
least one digit overall), optional decimal exponent, magnitude at most
`maxFloat64`.  The value is kept exact as a rational; IEEE
round-to-nearest, the `inf`/`nan` spellings, hexadecimal floats and
digit-separating underscores accepted by the stdlib are outside the
model (none of the checked claims exercise them). -/
def goParseFloat (s : String) : Option Rat :=
  let p := splitSign s.data
  let neg := p.1
  let cs := p.2
  let ip := cs.takeWhile isDigitChar
  let cs1 := cs.drop ip.length
  let fr : List Char × List Char :=
    match cs1 with
    | c :: r =>
      if c = '.' then (r.takeWhile isDigitChar, r.drop (r.takeWhile isDigitChar).length)
      else ([], c :: r)
    | [] => ([], [])
  let fp := fr.1
  let cs2 := fr.2
  if ip.isEmpty && fp.isEmpty then none
  else
    match parseExpPart cs2 with
    | none => none
    | some (ex, rest) =>
      if !rest.isEmpty then none
      else
        let mant : Rat := (digitsVal ip : Rat) + (digitsVal fp : Rat) / ((10 : Rat) ^ fp.length)
        let q := (if neg then -mant else mant) * (10 : Rat) ^ ex
        if |q| ≤ maxFloat64 then some q else none

/-- `inferType` (part_004:1170-1196): type inference for unquoted scalar
text — the literal booleans, the three null spellings, then an integer
parse, then a float parse, else the text itself. -/
def inferType (s : String) : Value :=
  if s = "true" then .vBool true
  else if s = "false" then .vBool false
  else if s = "_" || s = "null" || s = "nil" then .vNull
  else
    match parseInt64 s with
    | some i => .vInt i
    | none =>
      match goParseFloat s with
      | some f => .vFloat f
      | none => .vStr s

/-! ## Association-list primitives used to model Go maps -/

/-- Lookup in an insertion-ordered association list (Go map read). -/
def lookupAssoc (m : List (String × Value)) (k : String) : Option Value :=
  match m with
  | [] => none
  | (k', v) :: rest => if k' = k then some v else lookupAssoc rest k

/-- Write into an insertion-ordered association list (Go map write):
replaces the existing binding of the key, else appends. -/
def setAssoc (m : List (String × Value)) (k : String) (v : Value) : List (String × Value) :=
  match m with
  | [] => [(k, v)]
  | (k', v') :: rest => if k' = k then (k, v) :: rest else (k', v') :: setAssoc rest k v

/-! ## Scope (part_004:17-45) -/

/-- `Scope`: a variable frame (`vars` map) with an optional enclosing
parent frame.  Go's nilable `parent *Scope` pointer is split into the
two constructors `root` (nil parent) and `child` (non-nil parent). -/
inductive Scope where
  | root (vars : List (String × Value)) : Scope
  | child (vars : List (String × Value)) (parent : Scope) : Scope
deriving Repr

/-- The `vars` map of a scope frame. -/
def Scope.vars : Scope → List (String × Value)
  | .root vs => vs
  | .child vs _ => vs

/-- The parent link of a scope frame. -/
def Scope.parent : Scope → Option Scope
  | .root _ => none
  | .child _ p => some p

/-- `NewScope` (part_004:24-29): fresh empty frame over a parent. -/
def Scope.newScope (parent : Scope) : Scope := .child [] parent

/-- `Scope.Set` (part_004:32-34): writes the binding into the frame the
method is invoked on (`s.vars[name] = value`); the parent link is
untouched. -/
def Scope.set : Scope → String → Value → Scope
  | .root vs, name, v => .root (setAssoc vs name v)
  | .child vs p, name, v => .child (setAssoc vs name v) p

/-- `Scope.Get` (part_004:37-45): innermost-first lookup, walking to the
parent only when the name is absent from the current frame.  Go returns
`(nil, false)` on total failure; this is `none`. -/
def Scope.get : Scope → String → Option Value
  | .root vs, name => lookupAssoc vs name
  | .child vs p, name =>
    match lookupAssoc vs name with
    | some v => some v
    | none => p.get name

end Haiku

namespace Haiku

/-! ## Textual formatting (model of `fmt.Sprintf("%v", ...)`)

The evaluator renders values to text in string interpolation, in the
default branch of `compareValues`, and in error messages.  `fmt` is Go
stdlib, i.e. an external collaborator; the model below reproduces its
output for the value shapes the claims exercise (strings, integers,
booleans, nil, lists and maps of those, finite-decimal floats) and is an
explicitly approximate stand-in elsewhere (noted per case). -/

/-- Insertion sort of an association list by key (Go `fmt` prints map
keys in sorted order). -/
def sortByKey (l : List (String × String)) : List (String × String) :=
  let insert : String × String → List (String × String) → List (String × String) :=
    fun kv acc =>
      match acc with
      | [] => [kv]
      | hd :: tl => if kv.1 ≤ hd.1 then kv :: hd :: tl else hd :: sortByKey.go kv tl hd
  l.foldr (fun kv acc => insert kv acc) []
where go (kv : String × String) (tl : List (String × String)) (hd : String × String) :
    List (String × String) :=
  match tl with
  | [] => [kv]
  | hd' :: tl' => if kv.1 ≤ hd'.1 then kv :: hd' :: tl' else hd' :: sortByKey.go kv tl' hd

/-- Space-joins a list of strings (Go `fmt`'s element separator). -/
def joinSp : List String → String
  | [] => ""
  | [s] => s
  | s :: rest => s ++ " " ++ joinSp rest

/-- Decimal digits of the fractional part of a nonnegative rational,
with a fuel bound of significant digits; terminating expansions within
the bound are exact (all values the claims format are).  Returns `""`
for zero, else `"." ++ digits`. -/
def fracDigits (r : Rat) : Nat → List Char
  | 0 => []
  | fuel + 1 =>
    if r = 0 then []
    else
      let d := (r * 10).floor
      Char.ofNat (48 + d.toNat) :: fracDigits (r * 10 - (d : Rat)) fuel

/-- Textual form of a float value (`fmt %v` on a `float64`, i.e.
shortest-decimal formatting): exact for finite decimal values of
moderate size; large/non-terminating values are approximated (no claim
formats one). -/
def ratRepr (q : Rat) : String :=
  if q = 0 then "0"
  else
    let sign := if q < 0 then "-" else ""
    let a := |q|
    let frac := fracDigits (a - (a.floor : Rat)) 18
    sign ++ toString a.floor.toNat ++ (if frac.isEmpty then "" else "." ++ String.mk frac)

/-- Textual form of a `time.Duration` (`Duration.String`): exact for
whole-second values; other values are approximated as a nanosecond
count (no claim formats one). -/
def durRepr (ns : Int) : String :=
  if ns % 1000000000 = 0 then toString (ns / 1000000000) ++ "s"
  else toString ns ++ "ns"

mutual

/-- Model of `fmt.Sprintf("%v", value)` on the interpreter's runtime
values: `<nil>` for nil, decimal for integers, `true`/`false`,
space-separated bracketed lists, `map[k:v ...]` with sorted keys. -/
def formatValue : Value → String
  | .vNull => "<nil>"
  | .vBool b => if b then "true" else "false"
  | .vInt n => toString n
  | .vFloat q => ratRepr q
  | .vStr s => s
  | .vDur ns => durRepr ns
  | .vList xs => "[" ++ joinSp (formatList xs) ++ "]"
  | .vMap es =>
    "map[" ++ joinSp ((sortByKey (formatEntries es)).map (fun kv => kv.1 ++ ":" ++ kv.2)) ++ "]"

/-- Formats the elements of a list value. -/
def formatList : List Value → List String
  | [] => []
  | v :: rest => formatValue v :: formatList rest

/-- Formats the entries of a map value (key, rendered value). -/
def formatEntries : List (String × Value) → List (String × String)
  | [] => []
  | (k, v) :: rest => (k, formatValue v) :: formatEntries rest

end

/-- Go `%T` of a runtime value (used in evaluator error messages). -/
def goTypeName : Value → String
  | .vNull => "<nil>"
  | .vBool _ => "bool"
  | .vInt _ => "int64"
  | .vFloat _ => "float64"
  | .vStr _ => "string"
  | .vList _ => "[]interface \x7b\x7d"
  | .vMap _ => "map[string]interface \x7b\x7d"
  | .vDur _ => "time.Duration"

/-- Byte-lexicographic three-way comparison of character lists (Go's
`<`/`>` on strings; identical to Go for ASCII text). -/
def charListCmp : List Char → List Char → Int
  | [], [] => 0
  | [], _ :: _ => -1
  | _ :: _, [] => 1
  | a :: arest, b :: brest =>
    if a.toNat < b.toNat then -1
    else if b.toNat < a.toNat then 1
    else charListCmp arest brest

/-- Three-way string comparison via `charListCmp`. -/
def strCmp (a b : String) : Int := charListCmp a.data b.data

/-- `compareValues` (part_004:1047-1145): nil handling first, then a
switch on the left operand's type — strings compare lexicographically,
numerics compare with int-to-float promotion (exact here; Go's
`float64(l)` rounds for `int64` values above `2^53`, which no claim
exercises), booleans compare with false < true; a left operand of
string/int/float/bool type compares as less-than against any other
right type; any other left type (list, map, duration — note a
`time.Duration` does not match Go's `case int64`) falls to the default
branch, which formats both operands with `%v` and compares the texts. -/
def compareValues (left right : Value) : Int :=
  match left, right with
  | .vNull, .vNull => 0
  | .vNull, _ => -1
  | _, .vNull => 1
  | .vStr l, .vStr r => strCmp l r
  | .vStr _, _ => -1
  | .vInt l, .vInt r => if l < r then -1 else if l > r then 1 else 0
  | .vInt l, .vFloat r => if (l : Rat) < r then -1 else if (l : Rat) > r then 1 else 0
  | .vInt _, _ => -1
  | .vFloat l, .vFloat r => if l < r then -1 else if l > r then 1 else 0
  | .vFloat l, .vInt r => if l < (r : Rat) then -1 else if l > (r : Rat) then 1 else 0
  | .vFloat _, _ => -1
  | .vBool l, .vBool r => if !l && r then -1 else if l && !r then 1 else 0
  | .vBool _, _ => -1
  | l, r => strCmp (formatValue l) (formatValue r)

/-- `isTruthy` (part_004:1147-1168): nil, false, zero numbers, the empty
string and empty collections are falsy; everything else — including a
`time.Duration`, which does not match Go's `case int64` and so falls to
the truthy default — is truthy. -/
def isTruthy : Value → Bool
  | .vNull => false
  | .vBool b => b
  | .vInt n => n != 0
  | .vFloat q => q != 0
  | .vStr s => s != ""
  | .vList xs => xs.length > 0
  | .vMap es => es.length > 0
  | .vDur _ => true

/-- `getNestedValue` (part_004:1200-1217): navigates a value through a
dotted path — map segments index by key (a missing key yields Go's nil
zero value and navigation continues on nil), list segments parse the
segment as an integer index (`strconv.Atoi`, same success set as
`ParseInt` base 10/64-bit here) with a bounds check; navigation through
any other value yields nil. -/
def getNestedValue (v : Value) : List String → Value
  | [] => v
  | key :: rest =>
    match v with
    | .vMap m =>
      getNestedValue (match lookupAssoc m key with | some x => x | none => .vNull) rest
    | .vList xs =>
      match parseInt64 key with
      | some idx =>
        if 0 ≤ idx ∧ idx < (xs.length : Int) then getNestedValue (xs.getD idx.toNat .vNull) rest
        else .vNull
      | none => .vNull
    | _ => .vNull

end Haiku

namespace Haiku

/-! ## AST (`src/ast/ast.go`)

Positions carried by the Go nodes are diagnostic-only (no evaluation or
parsing decision reads them beyond copying), so they are dropped from the
embedding.  The `IfStmt`/`IfBranch`/`EchoStmt`/`BinaryExpr`/`UnaryExpr`
node shapes are taken from their construction sites in
`src/parser/parser_v2.go` and their use sites in `part_004` (the ast.go
generation declaring them is not under `src/`).  `exprNil` / `stmtNil`
model Go's nil `Expression` / nil `Statement` interface values, which the
parser can produce and the evaluator's type switches fall through on. -/

mutual

/-- Expression nodes.  `numberLit` carries the two optional pointers of
Go's `NumberLiteral` (`IntVal`, `FloatVal`). -/
inductive Expression where
  | stringLit (value : String) (quoted : Bool) : Expression
  | numberLit (intVal : Option Int) (floatVal : Option Rat) : Expression
  | boolLit (value : Bool) : Expression
  | nullLit : Expression
  | emptyArrayLit : Expression
  | emptyObjectLit : Expression
  | varRef (name : String) (path : List String) : Expression
  | procString (processor content : String) : Expression
  | blockExpr (entries : List Entry) : Expression
  | literal (value : Value) : Expression
  | binaryExpr (op : String) (left right : Expression) : Expression
  | unaryExpr (op : String) (operand : Expression) : Expression
  | exprNil : Expression

/-- A block entry: optional key (empty string = array item) plus value
expression. -/
inductive Entry where
  | mk (key : String) (value : Expression) : Entry

end

/-- The key of a block entry. -/
def Entry.key : Entry → String
  | .mk k _ => k

/-- The value expression of a block entry. -/
def Entry.value : Entry → Expression
  | .mk _ v => v

/-- Whether an expression is the nil interface value. -/
def Expression.isNilExpr : Expression → Bool
  | .exprNil => true
  | _ => false

mutual

/-- Statement nodes.  `request` mirrors `RequestStmt` (method, URL,
optional headers block, optional body expression, optional timeout
expression); `forStmt` mirrors `ForStmt` (item/index variables, iterable,
body, parallel flag, concurrency bound). -/
inductive Statement where
  | importStmt (path : String) : Statement
  | varDef (name : String) (value : Option Expression) : Statement
  | request (method : String) (url : Expression) (headers : Option (List Entry))
      (body : Option Expression) (timeoutExpr : Option Expression) : Statement
  | forStmt (itemVar indexVar : String) (iterable : Expression)
      (body : List Statement) (parallel : Bool) (concurrency : Int) : Statement
  | ifStmt (branches : List IfBranch) (elseBody : List Statement) : Statement
  | echo (value : Option Expression) : Statement
  | separator : Statement
  | stmtNil : Statement

/-- One `condition → body` branch of an if statement. -/
inductive IfBranch where
  | mk (cond : Expression) (body : List Statement) : IfBranch

end

/-- The condition of an if branch. -/
def IfBranch.cond : IfBranch → Expression
  | .mk c _ => c

/-- The body of an if branch. -/
def IfBranch.body : IfBranch → List Statement
  | .mk _ b => b

/-- A parsed program: ordered statement sequence. -/
abbrev Program := List Statement

/-- A synthesized request descriptor: the evaluator's output unit
(`map[string]interface{}` in Go), modelled as an insertion-ordered
association list. -/
abbrev Request := List (String × Value)

/-- External collaborators of the evaluator (spec §6): the process
environment, the file system, the JSON codec, the base64 codec and
the importing hook (`parseImportedFile`, the settable global).  All are
uninterpreted functions; `none` models the Go error return. -/
structure Externals where
  getenv : String → String
  readFile : String → Option String
  jsonUnmarshal : String → Option Value
  base64Decode : String → Option String
  parseImportedFile : String → Option Program

/-- `Evaluator` (part_004:48-55): current scope, previous response for
`$_` chaining (`nil` initially), import base path, optional
request-execution callback, accumulated request descriptors, and the
global default timeout in nanoseconds. -/
structure Evaluator where
  scope : Scope
  prevResponse : Option (List (String × Value))
  basePath : String
  requestCallback : Option (Request → Except String (Option (List (String × Value))))
  collectedRequests : List Request
  defaultTimeout : Int

/-- `NewEvaluator` (part_004:75-84) before options are applied: empty
root scope, 30-second default timeout, no callback, nil previous
response. -/
def newEvaluator : Evaluator :=
  { scope := .root []
    prevResponse := none
    basePath := ""
    requestCallback := none
    collectedRequests := []
    defaultTimeout := 30 * 1000000000 }

/-! ## Expression evaluation (part_004:767-968) -/

/-- `isIdentChar` of the eval package (part_004:1219-1224): ASCII
letters, digits, underscore. -/
def evalIsIdentChar (c : Char) : Bool :=
  ('a' ≤ c && c ≤ 'z') || ('A' ≤ c && c ≤ 'Z') || ('0' ≤ c && c ≤ '9') || c = '_'

/-- `evalVarRef` (part_004:823-852): `$_` resolves against the previous
response (nil when none); `$env.X` reads the environment; other names
walk the scope chain (absence yields nil) and then navigate the dotted
path. -/
def evalVarRef (ext : Externals) (e : Evaluator) (name : String) (path : List String) : Value :=
  if name = "_" then
    match e.prevResponse with
    | none => .vNull
    | some pr => if path.isEmpty then .vMap pr else getNestedValue (.vMap pr) path
  else if name = "env" && !path.isEmpty then
    match path with
    | p0 :: _ => .vStr (ext.getenv p0)
    | [] => .vNull
  else
    match e.scope.get name with
    | none => .vNull
    | some val => if path.isEmpty then val else getNestedValue val path

/-- The split loop of Go `strings.Split(path, ".")` on a single-byte
separator. -/
def goSplitDotAux : List Char → List Char → List String
  | [], acc => [String.mk acc.reverse]
  | c :: rest, acc =>
    if c = '.' then String.mk acc.reverse :: goSplitDotAux rest []
    else goSplitDotAux rest (c :: acc)

/-- Model of Go `strings.Split(s, ".")`. -/
def goSplitDot (s : String) : List String := goSplitDotAux s.data []

/-- `resolveVarPath` (part_004:933-968), the interpolation-time variant
of variable resolution: it splits the textual path on dots, resolves
`$_` and `$env` like `evalVarRef`, but returns the original
`"$" ++ path` text when a regular name is absent from the scope chain. -/
def resolveVarPath (ext : Externals) (e : Evaluator) (path : String) : Value :=
  match goSplitDot path with
  | [] => .vNull
  | name :: rest =>
    if name = "_" then
      match e.prevResponse with
      | none => .vNull
      | some pr => if rest.isEmpty then .vMap pr else getNestedValue (.vMap pr) rest
    else if name = "env" && rest.length > 0 then
      match rest with
      | p1 :: _ => .vStr (ext.getenv p1)
      | [] => .vNull
    else
      match e.scope.get name with
      | none => .vStr ("$" ++ path)
      | some val => if rest.isEmpty then val else getNestedValue val rest

/-- The scanning loop of `interpolateString` (part_004:904-931) in
accumulator form: every maximal nonempty run of identifier/dot
characters after a `$` is resolved via `resolveVarPath` and replaced by
the `%v` text of the result; the inserted text is skipped, not
rescanned (Go advances `i` past it).  The fuel is an upper bound on the
number of scanning steps; `interpolateString` supplies enough for the
loop to complete, as Go's always does. -/
def interpolateGo (ext : Externals) (e : Evaluator) : Nat → List Char → List Char
  | 0, cs => cs
  | _ + 1, [] => []
  | fuel + 1, c :: cs =>
    if c = '$' then
      let run := cs.takeWhile (fun x => evalIsIdentChar x || x = '.')
      if run.isEmpty then '$' :: interpolateGo ext e fuel cs
      else
        let valueStr := formatValue (resolveVarPath ext e (String.mk run))
        valueStr.data ++ interpolateGo ext e fuel (cs.drop run.length)
    else c :: interpolateGo ext e fuel cs

/-- `interpolateString` (part_004:904-931). -/
def interpolateString (ext : Externals) (e : Evaluator) (s : String) : String :=
  String.mk (interpolateGo ext e (s.data.length + 1) s.data)

/-- `evalProcessedString` (part_004:854-884): `json` falls back to the
raw content on decode failure, `base64` likewise, `file` reads the file
(falling back to the raw reference text), then attempts a JSON parse of
the contents (falling back to the raw text); unknown processors yield
the raw content. -/
def evalProcessedString (ext : Externals) (processor content : String) : Value :=
  if processor = "json" then
    match ext.jsonUnmarshal content with
    | some v => v
    | none => .vStr content
  else if processor = "base64" then
    match ext.base64Decode content with
    | some s => .vStr s
    | none => .vStr content
  else if processor = "file" then
    match ext.readFile content with
    | none => .vStr content
    | some data =>
      match ext.jsonUnmarshal data with
      | some v => v
      | none => .vStr data
  else .vStr content

/-- `BlockExpr.IsArray` (ast.go:226-234): a block is array-shaped iff no
entry has both a nonempty key and a non-nil value. -/
def isArrayBlock (entries : List Entry) : Bool :=
  entries.all fun en => !(en.key != "" && !en.value.isNilExpr)

/-- The operator switch of `evalBinaryExpr` (part_004:1010-1034):
comparisons via `compareValues`, `and`/`or` via truthiness, any other
operator (including the parser's `+`) yields `false`. -/
def binaryOp (op : String) (left right : Value) : Value :=
  if op = "==" then .vBool (compareValues left right = 0)
  else if op = "!=" then .vBool (compareValues left right ≠ 0)
  else if op = ">" then .vBool (compareValues left right > 0)
  else if op = "<" then .vBool (compareValues left right < 0)
  else if op = ">=" then .vBool (compareValues left right ≥ 0)
  else if op = "<=" then .vBool (compareValues left right ≤ 0)
  else if op = "and" then .vBool (isTruthy left && isTruthy right)
  else if op = "or" then .vBool (isTruthy left || isTruthy right)
  else .vBool false

/-- The operator switch of `evalUnaryExpr` (part_004:1036-1045). -/
def unaryOp (op : String) (operand : Value) : Value :=
  if op = "not" then .vBool (!isTruthy operand) else operand

mutual

/-- `evalExpr` (part_004:767-817): quoted string literals are
interpolated, unquoted ones type-inferred; number/bool/null/empty
literals map to their values; variable references, processed strings and
blocks dispatch to their helpers; binary/unary expressions evaluate
operands then apply the operator switch; a nil expression falls through
Go's type switch and yields nil. -/
def evalExpr (ext : Externals) (e : Evaluator) : Expression → Value
  | .stringLit v quoted => if quoted then .vStr (interpolateString ext e v) else inferType v
  | .numberLit intVal floatVal =>
    match intVal with
    | some n => .vInt n
    | none =>
      match floatVal with
      | some q => .vFloat q
      | none => .vNull
  | .boolLit b => .vBool b
  | .nullLit => .vNull
  | .emptyArrayLit => .vList []
  | .emptyObjectLit => .vMap []
  | .varRef name path => evalVarRef ext e name path
  | .procString p c => evalProcessedString ext p c
  | .blockExpr entries =>
    if isArrayBlock entries then .vList (evalBlockSlice ext e entries)
    else .vMap (evalBlockMap ext e [] entries)
  | .literal v => v
  | .binaryExpr op l r => binaryOp op (evalExpr ext e l) (evalExpr ext e r)
  | .unaryExpr op operand => unaryOp op (evalExpr ext e operand)
  | .exprNil => .vNull

/-- `evalBlockToSlice` (part_004:896-902): every entry's value, in
order. -/
def evalBlockSlice (ext : Externals) (e : Evaluator) : List Entry → List Value
  | [] => []
  | .mk _ v :: rest => evalExpr ext e v :: evalBlockSlice ext e rest

/-- `evalBlockToMap` (part_004:886-894): keyed entries only, written in
entry order into the result map (`acc`), so a duplicated key keeps the
last entry's value, like Go's map writes. -/
def evalBlockMap (ext : Externals) (e : Evaluator) (acc : List (String × Value)) :
    List Entry → List (String × Value)
  | [] => acc
  | .mk k v :: rest =>
    if k != "" then evalBlockMap ext e (setAssoc acc k (evalExpr ext e v)) rest
    else evalBlockMap ext e acc rest

end

end Haiku

namespace Haiku

/-! ## Timeout parsing (part_004:1226-1290) -/

/-- Go's float-to-integer conversion (truncation toward zero) on the
rational float model. -/
def ratTruncInt (q : Rat) : Int :=
  if q ≥ 0 then q.floor else q.ceil

/-- Whitespace test for the trimming model (`unicode.IsSpace`, exact on
ASCII). -/
def isSpaceChar (c : Char) : Bool :=
  c = ' ' || c = '\t' || c = '\n' || c = '\r' || c = '\x0b' || c = '\x0c'

/-- Model of Go `strings.TrimSpace` (exact on ASCII text). -/
def goTrim (s : String) : String :=
  String.mk (((s.data.dropWhile isSpaceChar).reverse.dropWhile isSpaceChar).reverse)

/-- Model of Go `strings.ToLower` (exact on ASCII text). -/
def goLower (s : String) : String :=
  String.mk (s.data.map (fun c =>
    if 'A' ≤ c && c ≤ 'Z' then Char.ofNat (c.toNat + 32) else c))

/-- `parseTimeoutString` (part_004:1245-1290): trims the string, first
tries a bare number (seconds), else splits a leading digits-and-dots
prefix from a unit suffix and scales by the unit (`s`/`ms`/`m` families);
anything else is an error. -/
def parseTimeoutString (s : String) : Except String Int :=
  let s := goTrim s
  if s = "" then .error "empty timeout string"
  else
    match goParseFloat s with
    | some num => .ok (ratTruncInt (num * 1000000000))
    | none =>
      let numChars := s.data.takeWhile (fun c => isDigitChar c || c = '.')
      let unitChars := s.data.drop numChars.length
      if numChars.isEmpty then .error ("no number found in timeout string: " ++ s)
      else
        match goParseFloat (String.mk numChars) with
        | none => .error ("invalid number in timeout string: " ++ String.mk numChars)
        | some num =>
          let unit := goLower (goTrim (String.mk unitChars))
          if unit = "s" || unit = "sec" || unit = "second" || unit = "seconds" then
            .ok (ratTruncInt (num * 1000000000))
          else if unit = "ms" || unit = "msec" || unit = "millisecond" ||
              unit = "milliseconds" then
            .ok (ratTruncInt (num * 1000000))
          else if unit = "m" || unit = "min" || unit = "minute" || unit = "minutes" then
            .ok (ratTruncInt (num * 60000000000))
          else .error ("unknown timeout unit: " ++ unit ++ " (supported: s, ms, m)")

/-- `parseTimeout` (part_004:1228-1242): an integer is seconds, a float
is seconds (truncated to nanoseconds), a string goes through
`parseTimeoutString`; any other value type is an error. -/
def parseTimeout : Value → Except String Int
  | .vInt v => .ok (v * 1000000000)
  | .vFloat q => .ok (ratTruncInt (q * 1000000000))
  | .vStr s => parseTimeoutString s
  | v => .error ("unsupported timeout type: " ++ goTypeName v)

/-! ## Statement evaluation (part_004:86-765)

Statement evaluation threads the `Evaluator` record explicitly and
returns `(optional error, updated evaluator)`.  Recursion through
statements is not structural in Go (imports evaluate freshly parsed
programs), so the family carries a fuel bound on recursion depth;
exhausting it returns the dedicated `fuelErr` abort with the state
unchanged.  The request-execution callback returns Go's
`(map[string]interface{}, error)` pair, i.e. `Except` of an optional
mapping (a nil map with a nil error is legal). -/

/-- The model's recursion-depth abort message (not a Go error). -/
def fuelErr : String := "model: recursion depth exhausted"

/-- `evalVarDef` (part_004:212-229): binds the (possibly nil) value in
the current scope, then — only for the name `timeout` with a non-nil
value — replaces the evaluator's default timeout when the value parses
as a duration, silently keeping the old default when it does not. -/
def evalVarDef (ext : Externals) (e : Evaluator) (name : String) (value : Option Expression) :
    Evaluator :=
  match value with
  | none => { e with scope := e.scope.set name .vNull }
  | some expr =>
    let val := evalExpr ext e expr
    let e1 := { e with scope := e.scope.set name val }
    if name = "timeout" then
      match parseTimeout val with
      | .ok d => { e1 with defaultTimeout := d }
      | .error _ => e1
    else e1

/-- `evalRequest` (part_004:236-267): builds the descriptor map in order
— method key bound to the evaluated URL, then optional `headers`, `body`
and `timeout` entries.  A request-level timeout that fails to parse is a
hard error; otherwise a positive default timeout is attached. -/
def evalRequest (ext : Externals) (e : Evaluator) (method : String) (url : Expression)
    (headers : Option (List Entry)) (body : Option Expression)
    (timeoutExpr : Option Expression) : Except String Request :=
  let req : Request := setAssoc [] method (evalExpr ext e url)
  let req :=
    match headers with
    | some h => setAssoc req "headers" (.vMap (evalBlockMap ext e [] h))
    | none => req
  let req :=
    match body with
    | some b => setAssoc req "body" (evalExpr ext e b)
    | none => req
  match timeoutExpr with
  | some t =>
    let tv := evalExpr ext e t
    match parseTimeout tv with
    | .ok d => .ok (setAssoc req "timeout" (.vDur d))
    | .error _ => .error ("invalid timeout value: " ++ formatValue tv)
  | none =>
    if e.defaultTimeout > 0 then .ok (setAssoc req "timeout" (.vDur e.defaultTimeout))
    else .ok req

/-- The iterable-to-items switch shared (verbatim in the Go source) by
`evalForCollect` (part_004:296-329) and `EvalParallelForWithOutput`
(part_004:587-620): lists iterate as-is, maps iterate their values (Go
map order is nondeterministic; modelled as entry order), a nonnegative
integer or an integral nonnegative float iterates the range `0..N-1`;
anything else is an error. -/
def extractItems : Value → Except String (List Value)
  | .vList xs => .ok xs
  | .vMap m => .ok (m.map (·.2))
  | .vInt v =>
    if v < 0 then .error ("for loop: cannot iterate over negative number " ++ toString v)
    else .ok ((List.range v.toNat).map (fun i => .vInt i))
  | .vFloat q =>
    let n := ratTruncInt q
    if q < 0 ∨ (n : Rat) ≠ q then
      .error ("for loop: cannot iterate over non-positive integer " ++ ratRepr q)
    else .ok ((List.range n.toNat).map (fun i => .vInt i))
  | v => .error ("for loop: cannot iterate over " ++ goTypeName v)

/-- Per-task outcome of a parallel loop body. -/
structure TaskOutcome where
  err : Option String
  reqs : List Request

/-- The body loop of one `evalParallelFor` goroutine (part_004:454-472):
only `RequestStmt` body statements are examined — a descriptor is
synthesized per request and accumulated; every non-request statement is
skipped (the loop has no other branch); the first request error ends the
task.  The callback is deliberately not invoked here (part_004:468-470).
-/
def parallelTaskLoop (ext : Externals) (tempEval : Evaluator) :
    List Statement → List Request → TaskOutcome
  | [], acc => { err := none, reqs := acc }
  | stmt :: rest, acc =>
    match stmt with
    | .request m url h b t =>
      match evalRequest ext tempEval m url h b t with
      | .error msg => { err := some msg, reqs := acc }
      | .ok req => parallelTaskLoop ext tempEval rest (acc ++ [req])
    | _ => parallelTaskLoop ext tempEval rest acc

/-- One `evalParallelFor` task (part_004:427-483): a fresh child scope
binding the item (and index when present), an isolated evaluator view
sharing only the previous-response snapshot, base path, callback and
default timeout, then the requests-only body loop. -/
def parallelTaskCollect (ext : Externals) (e : Evaluator) (itemVar indexVar : String)
    (body : List Statement) (idx : Nat) (item : Value) : TaskOutcome :=
  let loopScope := (Scope.newScope e.scope).set itemVar item
  let loopScope := if indexVar != "" then loopScope.set indexVar (.vInt idx) else loopScope
  let tempEval : Evaluator :=
    { scope := loopScope
      prevResponse := e.prevResponse
      basePath := e.basePath
      requestCallback := e.requestCallback
      collectedRequests := []
      defaultTimeout := e.defaultTimeout }
  parallelTaskLoop ext tempEval body []

/-- Writes a parallel loop's stats map into the enclosing scope
(part_004:521-533 and 746-758): `_parallel_stats` keeps the last stats,
`_parallel_stats_list` accumulates one entry per parallel loop. -/
def storeParallelStats (e : Evaluator) (statsMap : List (String × Value)) : Evaluator :=
  let e1 := { e with scope := e.scope.set "_parallel_stats" (.vMap statsMap) }
  match e1.scope.get "_parallel_stats_list" with
  | some (.vList l) =>
    { e1 with scope := e1.scope.set "_parallel_stats_list" (.vList (l ++ [.vMap statsMap])) }
  | some _ =>
    { e1 with scope := e1.scope.set "_parallel_stats_list" (.vList [.vMap statsMap]) }
  | none =>
    { e1 with scope := e1.scope.set "_parallel_stats_list" (.vList [.vMap statsMap]) }

/-- `evalParallelFor` (part_004:397-540), the collecting variant used by
`Eval`/`EvalToRequests`.  Goroutine completion order is
scheduling-dependent in Go; the model runs the per-item tasks in item
order, which is one admissible schedule (the claims checked against
this function concern a single task's behavior or single-item loops).
Task durations come from the wall clock (external); the model reports
them as zero.  Requests of failed tasks are dropped; collected requests
are appended to the evaluator only when no callback is configured;
success is counted for a completing task only while no error has been
recorded (Go's `len(errors) == 0 || errors[len(errors)-1] == nil` check,
whose second disjunct never holds).  Statistics are stored in the
enclosing scope, then an aggregate error referencing the first failure
is reported if any task failed. -/
def evalParallelFor (ext : Externals) (e : Evaluator) (itemVar indexVar : String)
    (body : List Statement) (items : List Value) : Option String × Evaluator :=
  if items.isEmpty then (none, e)
  else
    let outcomes := (items.enum).map (fun p => parallelTaskCollect ext e itemVar indexVar body p.1 p.2)
    let agg := outcomes.foldl
      (fun (acc : List String × Nat × Nat × List Request) o =>
        match o.err with
        | some msg => (acc.1 ++ [msg], acc.2.1, acc.2.2.1 + 1, acc.2.2.2)
        | none =>
          (acc.1, (if acc.1.isEmpty then acc.2.1 + 1 else acc.2.1), acc.2.2.1,
            acc.2.2.2 ++ o.reqs))
      ([], 0, 0, [])
    let errs := agg.1
    let statsMap : List (String × Value) :=
      [("total", .vInt items.length), ("success", .vInt agg.2.1), ("failed", .vInt agg.2.2.1),
       ("total_time", .vStr (durRepr 0)), ("min_time", .vStr (durRepr 0)),
       ("max_time", .vStr (durRepr 0)), ("avg_time", .vStr (durRepr 0))]
    let e1 :=
      if e.requestCallback.isNone then
        { e with collectedRequests := e.collectedRequests ++ agg.2.2.2 }
      else e
    let e2 := storeParallelStats e1 statsMap
    match errs with
    | [] => (none, e2)
    | first :: _ =>
      (some ("parallel execution had " ++ toString errs.length ++ " errors, first: " ++ first), e2)

/-- The body loop of one `EvalParallelForWithOutput` goroutine
(part_004:678-701): again only `RequestStmt` body statements are
examined; here a configured callback is invoked immediately per
synthesized descriptor (its response is discarded), and a request or
callback error ends the task. -/
def parallelTaskOutputLoop (ext : Externals) (tempEval : Evaluator) :
    List Statement → Option String
  | [] => none
  | stmt :: rest =>
    match stmt with
    | .request m url h b t =>
      match evalRequest ext tempEval m url h b t with
      | .error msg => some msg
      | .ok req =>
        match tempEval.requestCallback with
        | some cb =>
          match cb req with
          | .error msg => some msg
          | .ok _ => parallelTaskOutputLoop ext tempEval rest
        | none => parallelTaskOutputLoop ext tempEval rest
    | _ => parallelTaskOutputLoop ext tempEval rest

/-- `EvalParallelForWithOutput` (part_004:584-765): the executing
variant used by the CLI driver.  Same modelling conventions as
`evalParallelFor`; here every completing task counts as a success,
nothing is collected, and the stats map additionally carries the loop's
wall time (zero in the model: the clock is external). -/
def evalParallelForWithOutput (ext : Externals) (e : Evaluator) (itemVar indexVar : String)
    (iterable : Expression) (body : List Statement) : Option String × Evaluator :=
  match extractItems (evalExpr ext e iterable) with
  | .error msg => (some msg, e)
  | .ok items =>
    if items.isEmpty then (none, e)
    else
      let outcomes := (items.enum).map (fun p =>
        let loopScope := (Scope.newScope e.scope).set itemVar p.2
        let loopScope := if indexVar != "" then loopScope.set indexVar (.vInt p.1) else loopScope
        let tempEval : Evaluator :=
          { scope := loopScope
            prevResponse := e.prevResponse
            basePath := e.basePath
            requestCallback := e.requestCallback
            collectedRequests := []
            defaultTimeout := e.defaultTimeout }
        parallelTaskOutputLoop ext tempEval body)
      let errs := outcomes.filterMap id
      let succ := outcomes.length - errs.length
      let statsMap : List (String × Value) :=
        [("total", .vInt items.length), ("success", .vInt succ), ("failed", .vInt errs.length),
         ("total_time", .vStr (durRepr 0)), ("min_time", .vStr (durRepr 0)),
         ("max_time", .vStr (durRepr 0)), ("avg_time", .vStr (durRepr 0)),
         ("wall_time", .vStr (durRepr 0))]
      let e2 := storeParallelStats e statsMap
      match errs with
      | [] => (none, e2)
      | first :: _ =>
        (some ("parallel execution had " ++ toString errs.length ++ " errors, first: " ++ first),
          e2)

mutual

/-- `evalStatementCollect` (part_004:146-173): the statement dispatch of
the collecting path.  A synthesized request descriptor is appended to
the collected list and becomes the previous response (the mock response
for `$_` chaining); separators and unrecognized (incl. nil) statements
do nothing.  `echo` writes to stderr, which is outside the model's
state. -/
def evalStatementCollect (ext : Externals) (fuel : Nat) (e : Evaluator) (stmt : Statement) :
    Option String × Evaluator :=
  match fuel with
  | 0 => (some fuelErr, e)
  | fuel + 1 =>
    match stmt with
    | .importStmt path => evalImport ext fuel e path
    | .varDef name value => (none, evalVarDef ext e name value)
    | .request m url h b t =>
      match evalRequest ext e m url h b t with
      | .error msg => (some msg, e)
      | .ok req =>
        (none, { e with collectedRequests := e.collectedRequests ++ [req],
                        prevResponse := some req })
    | .forStmt itemVar indexVar iterable body par _conc =>
      evalForCollect ext fuel e itemVar indexVar iterable body par
    | .ifStmt branches elseBody => evalIf ext fuel e branches elseBody
    | .echo _ => (none, e)
    | .separator => (none, e)
    | .stmtNil => (none, e)

/-- `evalImport` (part_004:180-205): resolves the path against the base
path (unless absolute), reads and re-parses the file through the
external hooks, then evaluates every statement of the imported program
in the current evaluator state, wrapping the first error.  (The
wrapped `os`/parse error texts are external; the model uses the path /
a fixed text in their place.) -/
def evalImport (ext : Externals) (fuel : Nat) (e : Evaluator) (path : String) :
    Option String × Evaluator :=
  match fuel with
  | 0 => (some fuelErr, e)
  | fuel + 1 =>
    let fullPath :=
      if e.basePath != "" && !path.startsWith "/" then e.basePath ++ "/" ++ path else path
    match ext.readFile fullPath with
    | none => (some ("import error: " ++ fullPath), e)
    | some content =>
      match ext.parseImportedFile content with
      | none => (some "import parse error", e)
      | some prog =>
        match evalSeq ext fuel e prog with
        | (some msg, e') => (some ("import evaluation error: " ++ msg), e')
        | (none, e') => (none, e')

/-- The statement loops of `Eval`/`EvalToRequests`/`evalImport`/
`evalIf` bodies: evaluate each statement through
`evalStatementCollect`, aborting at the first error. -/
def evalSeq (ext : Externals) (fuel : Nat) (e : Evaluator) :
    List Statement → Option String × Evaluator
  | [] => (none, e)
  | stmt :: rest =>
    match fuel with
    | 0 => (some fuelErr, e)
    | fuel + 1 =>
      match evalStatementCollect ext fuel e stmt with
      | (some msg, e') => (some msg, e')
      | (none, e') => evalSeq ext fuel e' rest

/-- `evalForCollect` (part_004:294-395): resolves the iterable to an
item list, dispatches parallel loops to the parallel engine, and
iterates sequentially otherwise. -/
def evalForCollect (ext : Externals) (fuel : Nat) (e : Evaluator)
    (itemVar indexVar : String) (iterable : Expression) (body : List Statement)
    (par : Bool) : Option String × Evaluator :=
  match fuel with
  | 0 => (some fuelErr, e)
  | fuel + 1 =>
    match extractItems (evalExpr ext e iterable) with
    | .error msg => (some msg, e)
    | .ok items =>
      if par then evalParallelFor ext e itemVar indexVar body items
      else evalForItems ext fuel e itemVar indexVar body items 0

/-- The sequential iteration of `evalForCollect` (part_004:341-392):
each iteration creates a fresh child scope binding the item (and the
0-based index when an index variable is present), switches the
evaluator to it, runs the body, and restores the saved scope afterwards
— also on error. -/
def evalForItems (ext : Externals) (fuel : Nat) (e : Evaluator) (itemVar indexVar : String)
    (body : List Statement) (items : List Value) (idx : Nat) : Option String × Evaluator :=
  match fuel with
  | 0 => (some fuelErr, e)
  | fuel + 1 =>
    match items with
    | [] => (none, e)
    | item :: rest =>
      let loopScope := (Scope.newScope e.scope).set itemVar item
      let loopScope :=
        if indexVar != "" then loopScope.set indexVar (.vInt idx) else loopScope
      let oldScope := e.scope
      match evalBodyStmts ext fuel { e with scope := loopScope } body with
      | (some msg, e2) => (some msg, { e2 with scope := oldScope })
      | (none, e2) =>
        evalForItems ext fuel { e2 with scope := oldScope } itemVar indexVar body rest (idx + 1)

/-- The body loop of one sequential loop iteration (part_004:354-388):
request statements are special-cased — with a callback configured the
descriptor is executed immediately and a non-nil response becomes the
previous response; without one it is collected and itself becomes the
previous response; every other statement goes through the regular
`evalStatementCollect` dispatch. -/
def evalBodyStmts (ext : Externals) (fuel : Nat) (e : Evaluator) :
    List Statement → Option String × Evaluator
  | [] => (none, e)
  | stmt :: rest =>
    match fuel with
    | 0 => (some fuelErr, e)
    | fuel + 1 =>
      match stmt with
      | .request m url h b t =>
        match evalRequest ext e m url h b t with
        | .error msg => (some msg, e)
        | .ok req =>
          match e.requestCallback with
          | some cb =>
            match cb req with
            | .error msg => (some msg, e)
            | .ok resp =>
              let e' :=
                match resp with
                | some r => { e with prevResponse := some r }
                | none => e
              evalBodyStmts ext fuel e' rest
          | none =>
            evalBodyStmts ext fuel
              { e with collectedRequests := e.collectedRequests ++ [req],
                       prevResponse := some req } rest
      | _ =>
        match evalStatementCollect ext fuel e stmt with
        | (some msg, e') => (some msg, e')
        | (none, e') => evalBodyStmts ext fuel e' rest

/-- `evalIf` (part_004:985-1008): branches are tried in order; the first
truthy condition's body runs (aborting on its first error) and
short-circuits the rest; otherwise the else body runs. -/
def evalIf (ext : Externals) (fuel : Nat) (e : Evaluator) (branches : List IfBranch)
    (elseBody : List Statement) : Option String × Evaluator :=
  match fuel with
  | 0 => (some fuelErr, e)
  | fuel + 1 =>
    match branches with
    | [] => evalSeq ext fuel e elseBody
    | br :: rest =>
      if isTruthy (evalExpr ext e br.cond) then evalSeq ext fuel e br.body
      else evalIf ext fuel e rest elseBody

end

/-- The request-execution loop of `Eval` (part_004:98-106): executes
each collected descriptor through the callback, feeding each non-error
response (possibly nil) back as the previous response; the first
callback error aborts. -/
def execRequests (cb : Request → Except String (Option (List (String × Value))))
    (e : Evaluator) : List Request → Option String × Evaluator
  | [] => (none, e)
  | req :: rest =>
    match cb req with
    | .error msg => (some msg, e)
    | .ok resp => execRequests cb { e with prevResponse := resp } rest

/-- `Eval` (part_004:87-109): resets the collected list, evaluates all
statements (returning `(nil, err)` — note: not the collected list — on
the first statement error), then, when a callback is configured,
executes the collected descriptors, returning the collected list
alongside any callback error. -/
def Eval (ext : Externals) (fuel : Nat) (e : Evaluator) (prog : Program) :
    Option (List Request) × Option String × Evaluator :=
  let e0 := { e with collectedRequests := [] }
  match evalSeq ext fuel e0 prog with
  | (some msg, e') => (none, some msg, e')
  | (none, e') =>
    match e'.requestCallback with
    | some cb =>
      match execRequests cb e' e'.collectedRequests with
      | (some msg, e'') => (some e''.collectedRequests, some msg, e'')
      | (none, e'') => (some e''.collectedRequests, none, e'')
    | none => (some e'.collectedRequests, none, e')

/-- `EvalToRequests` (part_004:112-123): like `Eval` without the
execution phase; statement errors likewise return `(nil, err)`. -/
def EvalToRequests (ext : Externals) (fuel : Nat) (e : Evaluator) (prog : Program) :
    Option (List Request) × Option String × Evaluator :=
  let e0 := { e with collectedRequests := [] }
  match evalSeq ext fuel e0 prog with
  | (some msg, e') => (none, some msg, e')
  | (none, e') => (some e'.collectedRequests, none, e')

end Haiku

namespace Haiku

/-! ## Lexer (src/unnamed/part_002, package `lexer`)

The lexer state is threaded explicitly; `input` is the remaining input
with the head playing Go's current byte `l.ch` (an empty list is
`ch == 0`; an embedded NUL byte behaves like Go's, where every
`ch == 0` test sees it as end of data).  Characters model bytes: for
ASCII input — all the lexer's structural decisions are ASCII — the
models of `unicode.IsLetter`/`IsDigit` below agree with Go byte-wise.
The Go slice keeps the top of the indentation stack at the end; the
model keeps it at the head. -/

/-- The NUL character (Go's `ch == 0` end-of-data marker). -/
def nulChar : Char := Char.ofNat 0

/-- The backtick character (processed-string delimiter). -/
def btChar : Char := Char.ofNat 96

/-- `TokenType` (part_002:11-54). -/
inductive TokType where
  | EOF | ILLEGAL | NEWLINE | INDENT | DEDENT
  | STRING | IDENT | INT | FLOAT | PROC_STRING
  | IMPORT | FOR | IN | GET | POST | PUT | DELETE | PATCH | HEAD | OPTIONS
  | HEADERS | BODY | TRUE | FALSE | NULL
  | AT | DOLLAR | DOT | UNDERSCORE | EMPTY_ARRAY | EMPTY_OBJ | TRIPLE_DASH | COMMENT
deriving DecidableEq, Repr

/-- `Token` (part_002:100-105). -/
structure Token where
  type : TokType
  literal : String
  line : Nat
  column : Nat
deriving DecidableEq, Repr

/-- `Lexer` (part_002:112-122): remaining input (head = current char),
current position, line/column, indentation stack (top at head here),
pending DEDENT tokens, line-start flag. -/
structure LexState where
  input : List Char
  pos : Nat
  line : Nat
  column : Nat
  indentStack : List Nat
  pending : List Token
  atLineStart : Bool
deriving Repr

/-- The current character (`l.ch`); NUL at end of data. -/
def LexState.ch (l : LexState) : Char := l.input.headD nulChar

/-- `peekChar` (part_002:148-153). -/
def LexState.peek (l : LexState) : Char := l.input.tail.headD nulChar

/-- `readChar` (part_002:137-146): advance one character. -/
def readChar (l : LexState) : LexState :=
  { l with input := l.input.tail, pos := l.pos + 1, column := l.column + 1 }

/-- Advance `n` characters (an `n`-fold `readChar`). -/
def advanceN (l : LexState) (n : Nat) : LexState :=
  { l with input := l.input.drop n, pos := l.pos + n, column := l.column + n }

/-- `New` (part_002:124-135): line 1, a single zero indentation level,
at line start; the initial `readChar` leaves `pos = 0`, `column = 1`. -/
def lexNew (input : String) : LexState :=
  { input := input.data, pos := 0, line := 1, column := 1,
    indentStack := [0], pending := [], atLineStart := true }

/-- `isDigit` (part_002:467-469). -/
def lexIsDigit (c : Char) : Bool := '0' ≤ c && c ≤ '9'

/-- `isIdentStart` (part_002:471-473): `unicode.IsLetter` on the byte,
or underscore (ASCII-exact model). -/
def lexIsIdentStart (c : Char) : Bool := c.isAlpha || c = '_'

/-- `isIdentChar` (part_002:475-477): letter, digit, underscore or
hyphen. -/
def lexIsIdentChar (c : Char) : Bool := c.isAlpha || c.isDigit || c = '_' || c = '-'

/-- `skipSpaces` (part_002:396-400). -/
def skipSpacesL (l : LexState) : LexState :=
  advanceN l ((l.input.takeWhile (fun c => c = ' ' || c = '\t')).length)

/-- The literal scanned by `readComment` (part_002:402-408): everything
up to a newline, carriage return or NUL. -/
def readCommentLit (cs : List Char) : List Char :=
  cs.takeWhile (fun c => !(c = '\n' || c = '\r' || c = nulChar))

/-- The scan loop of `readString` (part_002:410-427) applied to the
characters after the opening quote: accumulates raw characters
(backslash escapes kept verbatim, consuming the escaped character) until
an unescaped closing quote or end of data; returns the literal and the
count of characters consumed including the closing quote.  (On input
ending in a lone backslash Go slices out of range and panics; the model
consumes the backslash and stops.) -/
def scanStrBody : List Char → List Char × Nat
  | [] => ([], 0)
  | '"' :: _ => ([], 1)
  | '\\' :: [] => (['\\'], 1)
  | '\\' :: c :: rest =>
    let p := scanStrBody rest
    ('\\' :: c :: p.1, p.2 + 2)
  | c :: rest =>
    if c = nulChar then ([], 0)
    else
      let p := scanStrBody rest
      (c :: p.1, p.2 + 1)

/-- The literal scanned by `readNumber` (part_002:442-457): optional
minus, digits, and a fractional part only when a digit follows the
dot. -/
def readNumberLit (cs : List Char) : List Char :=
  let p : List Char × List Char :=
    match cs with
    | '-' :: r => (['-'], r)
    | r => ([], r)
  let ds := p.2.takeWhile lexIsDigit
  let cs2 := p.2.drop ds.length
  match cs2 with
  | '.' :: c :: _ =>
    if lexIsDigit c then p.1 ++ ds ++ '.' :: (cs2.tail.takeWhile lexIsDigit)
    else p.1 ++ ds
  | _ => p.1 ++ ds

/-- The literal scanned by `readIdentifier` (part_002:459-465). -/
def readIdentLit (cs : List Char) : List Char :=
  cs.takeWhile lexIsIdentChar

/-- The content scanned by `readBacktickContent` (part_002:429-440)
after the opening backtick: everything up to the closing backtick or end
of data; returns the content and the count of characters consumed
including the closing backtick. -/
def scanBacktick (cs : List Char) : List Char × Nat :=
  let content := cs.takeWhile (fun c => !(c = btChar || c = nulChar))
  let rest := cs.drop content.length
  match rest with
  | c :: _ => if c = btChar then (content, content.length + 1) else (content, content.length)
  | [] => (content, content.length)

/-- `lookupKeyword` (part_002:479-504). -/
def lookupKeyword (s : String) : TokType :=
  if s = "import" then .IMPORT
  else if s = "for" then .FOR
  else if s = "in" then .IN
  else if s = "get" then .GET
  else if s = "post" then .POST
  else if s = "put" then .PUT
  else if s = "delete" then .DELETE
  else if s = "patch" then .PATCH
  else if s = "head" then .HEAD
  else if s = "options" then .OPTIONS
  else if s = "headers" then .HEADERS
  else if s = "body" then .BODY
  else if s = "true" then .TRUE
  else if s = "false" then .FALSE
  else if s = "null" then .NULL
  else if s = "nil" then .NULL
  else if s = "_" then .UNDERSCORE
  else .IDENT

/-- The dedent pop loop of `handleIndentation` (part_002:377-381): pops
levels while more than one remains and the top exceeds the new indent;
returns the new stack and the number of levels popped. -/
def dedentPop (stack : List Nat) (indent : Nat) : List Nat × Nat :=
  match stack with
  | top :: r1 :: rest =>
    if top > indent then
      let p := dedentPop (r1 :: rest) indent
      (p.1, p.2 + 1)
    else (top :: r1 :: rest, 0)
  | s => (s, 0)

/-- `handleIndentation` (part_002:322-394): measures leading
whitespace (space = 1, tab = 4), skips blank and comment-only lines
without touching the stack, then emits INDENT on an increase, the first
of the queued DEDENTs on a decrease, and no token (`none`, Go's
ILLEGAL-typed signal token) otherwise or at end of data.  The fuel
bounds the skipped-line loop; one beyond the remaining input length
always suffices since every iteration consumes at least one
character. -/
def handleIndent : Nat → LexState → Option Token × LexState
  | 0, l => (none, l)
  | fuel + 1, l =>
    let startPos := l.pos
    let ws := l.input.takeWhile (fun c => c = ' ' || c = '\t')
    let indent := ws.foldl (fun a c => a + (if c = ' ' then 1 else 4)) 0
    let l1 := advanceN l ws.length
    match l1.input with
    | [] => (none, l1)
    | c :: _ =>
      if c = '\n' || c = '\r' then
        let l2 := readChar l1
        let l3 := if c = '\r' && l2.ch = '\n' then readChar l2 else l2
        handleIndent fuel { l3 with line := l3.line + 1, column := 0 }
      else if c = '#' then
        let lit := readCommentLit l1.input
        let l2 := advanceN l1 lit.length
        match l2.input with
        | c2 :: _ =>
          if c2 = '\n' || c2 = '\r' then
            let l3 := readChar l2
            let l4 := if c2 = '\r' && l3.ch = '\n' then readChar l3 else l3
            handleIndent fuel { l4 with line := l4.line + 1, column := 0 }
          else (none, l2)
        | [] => (none, l2)
      else if c = nulChar then (none, l1)
      else
        let current := l1.indentStack.headD 0
        if indent > current then
          (some ⟨.INDENT, "", l1.line, startPos + 1⟩,
            { l1 with indentStack := indent :: l1.indentStack })
        else if indent < current then
          let p := dedentPop l1.indentStack indent
          let newPending :=
            l1.pending ++ (List.range p.2).map (fun _ => (⟨.DEDENT, "", l1.line, startPos + 1⟩ : Token))
          match newPending with
          | t :: restP => (some t, { l1 with indentStack := p.1, pending := restP })
          | [] => (none, { l1 with indentStack := p.1 })
        else (none, l1)

/-- The main character switch of `NextToken` (part_002:155-320), run
when no pending DEDENT and no indentation token applies: space skipping,
then end-of-data DEDENT draining and EOF, newlines, comments, sigils,
strings, `[]`/`{}`, the `-` family, numbers, identifiers/keywords/
processed strings, and ILLEGAL for anything else. -/
def nextTokenMain (l0 : LexState) : Token × LexState :=
  let l1 := skipSpacesL l0
      let line := l1.line
      let col := l1.column
      if l1.ch = nulChar then
        match l1.indentStack with
        | _ :: r1 :: rest => (⟨.DEDENT, "", line, col⟩, { l1 with indentStack := r1 :: rest })
        | _ => (⟨.EOF, "", line, col⟩, l1)
      else if l1.ch = '\n' then
        (⟨.NEWLINE, "\n", line, col⟩,
          { readChar l1 with line := l1.line + 1, column := 0, atLineStart := true })
      else if l1.ch = '\r' then
        let l2 := readChar l1
        let l3 := if l2.ch = '\n' then readChar l2 else l2
        (⟨.NEWLINE, "\n", line, col⟩, { l3 with line := l3.line + 1, column := 0, atLineStart := true })
      else if l1.ch = '#' then
        let lit := readCommentLit l1.input
        (⟨.COMMENT, String.mk lit, line, col⟩, advanceN l1 lit.length)
      else if l1.ch = '@' then (⟨.AT, "@", line, col⟩, readChar l1)
      else if l1.ch = '$' then (⟨.DOLLAR, "$", line, col⟩, readChar l1)
      else if l1.ch = '.' then (⟨.DOT, ".", line, col⟩, readChar l1)
      else if l1.ch = '"' then
        let p := scanStrBody l1.input.tail
        (⟨.STRING, String.mk p.1, line, col⟩, advanceN l1 (1 + p.2))
      else if l1.ch = '[' then
        if l1.peek = ']' then (⟨.EMPTY_ARRAY, "[]", line, col⟩, advanceN l1 2)
        else (⟨.ILLEGAL, "[", line, col⟩, readChar l1)
      else if l1.ch = '{' then
        if l1.peek = '}' then (⟨.EMPTY_OBJ, "\x7b\x7d", line, col⟩, advanceN l1 2)
        else (⟨.ILLEGAL, "\x7b", line, col⟩, readChar l1)
      else if l1.ch = '-' then
        if l1.peek = '-' then
          -- after consuming the second dash Go peeks at the third
          if (l1.input.drop 2).headD nulChar = '-' then
            (⟨.TRIPLE_DASH, "---", line, col⟩, advanceN l1 3)
          else (⟨.IDENT, "-", line, col⟩, advanceN l1 2)
        else if lexIsDigit l1.peek then
          let lit := readNumberLit l1.input
          (⟨if lit.contains '.' then .FLOAT else .INT, String.mk lit, line, col⟩,
            advanceN l1 lit.length)
        else
          let lit := readIdentLit l1.input
          (⟨.IDENT, String.mk lit, line, col⟩, advanceN l1 lit.length)
      else if lexIsDigit l1.ch then
        let lit := readNumberLit l1.input
        (⟨if lit.contains '.' then .FLOAT else .INT, String.mk lit, line, col⟩,
          advanceN l1 lit.length)
      else if lexIsIdentStart l1.ch then
        let lit := readIdentLit l1.input
        let l2 := advanceN l1 lit.length
        if l2.ch = btChar then
          let p := scanBacktick l2.input.tail
          (⟨.PROC_STRING,
            String.mk lit ++ String.singleton btChar ++ String.mk p.1 ++ String.singleton btChar,
            line, col⟩, advanceN l2 (1 + p.2))
        else (⟨lookupKeyword (String.mk lit), String.mk lit, line, col⟩, l2)
      else (⟨.ILLEGAL, String.singleton l1.ch, line, col⟩, readChar l1)

/-- `NextToken` (part_002:155-320), entry part: pending DEDENTs are
served first, then the line-start indentation handling runs, and only
when neither yields a token does the main switch (`nextTokenMain`)
scan. -/
def nextToken (l : LexState) : Token × LexState :=
  match l.pending with
  | t :: rest => (t, { l with pending := rest })
  | [] =>
    let step : Option Token × LexState :=
      if l.atLineStart then handleIndent (l.input.length + 1) { l with atLineStart := false }
      else (none, l)
    match step with
    | (some t, l') => (t, l')
    | (none, l0) => nextTokenMain l0

/-- The token-accumulating loop of `Tokenize` (part_002:507-518): emits
tokens until (and including) EOF; `none` when the fuel runs out
first. -/
def tokenizeAux : Nat → LexState → List Token → Option (List Token)
  | 0, _, _ => none
  | fuel + 1, l, acc =>
    let p := nextToken l
    if p.1.type = .EOF then some (acc ++ [p.1])
    else tokenizeAux fuel p.2 (acc ++ [p.1])

/-- `Tokenize` (part_002:507-518) with an explicit step bound. -/
def tokenize (fuel : Nat) (input : String) : Option (List Token) :=
  tokenizeAux fuel (lexNew input) []

end Haiku

namespace Haiku

/-! ## Parser v2 (src/parser/parser_v2.go)

The parser is embedded over an explicit token stream.  The token-type
enum of the lexer generation this parser is written against is not under
`src/` (only the older lexer is); `V2TokType` therefore lists exactly the
token types `parser_v2.go` references, with the spec's §4.1-4.2 naming.
Parsing routines that recurse through statements/blocks carry a fuel
bound; simple token-skipping loops use an internal bound that always
suffices (each iteration consumes a token, and a drained stream presents
`EOF`). -/

/-- The token types referenced by `parser_v2.go`. -/
inductive V2TokType where
  | EOF | ILLEGAL | NEWLINE | INDENT | DEDENT | COMMENT
  | STRING | IDENT | INT | FLOAT | PROC_STRING
  | IMPORT | FOR | IN | PARALLEL | IF | ELSE | ECHO | TIMEOUT
  | GET | POST | PUT | DELETE | PATCH | HEAD | OPTIONS | HEADERS | BODY
  | TRUE | FALSE | NULL
  | AT | DOLLAR | DOT | UNDERSCORE | COMMA | COLON | QUESTION | PLUS
  | EMPTY_ARRAY | EMPTY_OBJ | TRIPLE_DASH
  | AND | OR | NOT | EQ | NE | GT | LT | GTE | LTE
deriving DecidableEq, Repr

/-- A token of the v2 token stream. -/
structure V2Tok where
  type : V2TokType
  literal : String
  line : Nat
  column : Nat
deriving DecidableEq, Repr

/-- The EOF token a drained stream keeps presenting (the Go lexer keeps
returning EOF tokens once exhausted). -/
def v2EofTok : V2Tok := ⟨.EOF, "", 0, 0⟩

/-- Display name of a token type (Go's `tokenNames`, used only inside
error message texts). -/
def v2TokName (t : V2TokType) : String := toString (repr t)

/-- `ParserV2` (parser_v2.go:13-19): current and peek tokens over the
remaining stream, plus collected error messages. -/
structure PState where
  cur : V2Tok
  peek : V2Tok
  rest : List V2Tok
  errors : List String
deriving Repr

/-- `NewV2` (parser_v2.go:21-30): primes `curToken`/`peekToken` with the
first two tokens. -/
def pNew (toks : List V2Tok) : PState :=
  { cur := toks.headD v2EofTok
    peek := (toks.drop 1).headD v2EofTok
    rest := toks.drop 2
    errors := [] }

/-- `nextToken` (parser_v2.go:32-35). -/
def nextTok (p : PState) : PState :=
  { p with cur := p.peek, peek := p.rest.headD v2EofTok, rest := p.rest.tail }

/-- `peekError` (parser_v2.go:54-58). -/
def peekError (p : PState) (t : V2TokType) : PState :=
  { p with errors := p.errors ++
      ["line " ++ toString p.peek.line ++ ": expected " ++ v2TokName t ++ ", got " ++
        v2TokName p.peek.type] }

/-- `addError` (parser_v2.go:60-63). -/
def addError (p : PState) (msg : String) : PState :=
  { p with errors := p.errors ++ ["line " ++ toString p.cur.line ++ ": " ++ msg] }

/-- `expectPeek` (parser_v2.go:45-52). -/
def expectPeek (p : PState) (t : V2TokType) : Bool × PState :=
  if p.peek.type = t then (true, nextTok p) else (false, peekError p t)

/-- `for !cur(NEWLINE) && !cur(EOF) { next }` — the skip-to-newline
loops threaded through the statement parsers. -/
def skipToNewlineAux : Nat → PState → PState
  | 0, p => p
  | f + 1, p =>
    if p.cur.type = .NEWLINE ∨ p.cur.type = .EOF then p
    else skipToNewlineAux f (nextTok p)

/-- Bounded-by-stream-length wrapper for the skip-to-newline loop. -/
def skipToNewline (p : PState) : PState := skipToNewlineAux (p.rest.length + 2) p

/-- `for cur(NEWLINE) || cur(COMMENT) { next }`. -/
def skipNLCommentsAux : Nat → PState → PState
  | 0, p => p
  | f + 1, p =>
    if p.cur.type = .NEWLINE ∨ p.cur.type = .COMMENT then skipNLCommentsAux f (nextTok p)
    else p

/-- Bounded wrapper for the newline/comment skipping loop. -/
def skipNLComments (p : PState) : PState := skipNLCommentsAux (p.rest.length + 2) p

/-- `for cur(NEWLINE) { next }` (inside `parseRequestStmt`). -/
def skipNewlinesAux : Nat → PState → PState
  | 0, p => p
  | f + 1, p => if p.cur.type = .NEWLINE then skipNewlinesAux f (nextTok p) else p

/-- Bounded wrapper for the newline skipping loop. -/
def skipNewlines (p : PState) : PState := skipNewlinesAux (p.rest.length + 2) p

/-- `for !NEWLINE && !EOF && !DEDENT { next }` (after a timeout
expression). -/
def skipToNewlineOrDedentAux : Nat → PState → PState
  | 0, p => p
  | f + 1, p =>
    if p.cur.type = .NEWLINE ∨ p.cur.type = .EOF ∨ p.cur.type = .DEDENT then p
    else skipToNewlineOrDedentAux f (nextTok p)

/-- Bounded wrapper. -/
def skipToNewlineOrDedent (p : PState) : PState :=
  skipToNewlineOrDedentAux (p.rest.length + 2) p

/-- The dotted-path loop of `parseVarRef` (parser_v2.go:825-834):
consumes `.segment` pairs while the peek is a dot and the segment is an
identifier or integer literal. -/
def parseVarRefAux : Nat → PState → List String → List String × PState
  | 0, p, acc => (acc, p)
  | f + 1, p, acc =>
    if p.peek.type = .DOT then
      let p := nextTok (nextTok p)
      if p.cur.type = .IDENT ∨ p.cur.type = .INT then parseVarRefAux f p (acc ++ [p.cur.literal])
      else (acc, p)
    else (acc, p)

/-- `parseVarRef` (parser_v2.go:806-837): `$` then an identifier or
underscore (error and an empty-named reference otherwise), then the
dotted path. -/
def parseVarRef (p : PState) : Expression × PState :=
  let p := nextTok p
  if p.cur.type ≠ .IDENT ∧ p.cur.type ≠ .UNDERSCORE then
    (.varRef "" [], addError p "expected identifier after $")
  else
    let name := if p.cur.type = .UNDERSCORE then "_" else p.cur.literal
    let r := parseVarRefAux (p.rest.length + 2) p []
    (.varRef name r.1, r.2)

/-- `parseProcessedString` (parser_v2.go:839-864): splits the
`processor`-backtick-`content`-backtick literal at the first backtick,
stripping a trailing backtick from the content. -/
def parseProcStringLit (lit : String) : Expression :=
  let pre := lit.data.takeWhile (fun c => c ≠ btChar)
  if pre.length = lit.data.length then .procString lit ""
  else
    let content := lit.data.drop (pre.length + 1)
    let content :=
      if content.getLast? = some btChar then content.dropLast else content
    .procString (String.mk pre) (String.mk content)

/-- `parsePrimary` (parser_v2.go:748-804): a single-token expression (`$`
references and processed strings included); `none` models the nil
expression Go returns for any other token.  Go ignores the numeric
conversion errors (`val, _ := strconv.Parse...`); out-of-range literals,
which no claim exercises, are modelled as 0. -/
def parsePrimary (p : PState) : Option Expression × PState :=
  match p.cur.type with
  | .STRING => (some (.stringLit p.cur.literal true), p)
  | .IDENT => (some (.stringLit p.cur.literal false), p)
  | .INT => (some (.numberLit (some ((parseInt64 p.cur.literal).getD 0)) none), p)
  | .FLOAT => (some (.numberLit none (some ((goParseFloat p.cur.literal).getD 0))), p)
  | .TRUE => (some (.boolLit true), p)
  | .FALSE => (some (.boolLit false), p)
  | .NULL => (some .nullLit, p)
  | .UNDERSCORE => (some .nullLit, p)
  | .EMPTY_ARRAY => (some .emptyArrayLit, p)
  | .EMPTY_OBJ => (some .emptyObjectLit, p)
  | .DOLLAR =>
    let r := parseVarRef p
    (some r.1, r.2)
  | .PROC_STRING => (some (parseProcStringLit p.cur.literal), p)
  | _ => (none, p)

/-- The `+`-concatenation loop of `parseExpression`
(parser_v2.go:731-744); a nil operand becomes a nil pointer inside the
built node (`exprNil` here). -/
def parseExprPlusLoop : Nat → PState → Option Expression → Option Expression × PState
  | 0, p, left => (left, p)
  | f + 1, p, left =>
    if p.peek.type = .PLUS then
      let p := nextTok (nextTok p)
      let r := parsePrimary p
      parseExprPlusLoop f r.2 (some (.binaryExpr "+" (left.getD .exprNil) (r.1.getD .exprNil)))
    else (left, p)

/-- `parseExpression` (parser_v2.go:729-745): a primary followed by
left-associative `+` concatenation. -/
def parseExpression (p : PState) : Option Expression × PState :=
  let r := parsePrimary p
  parseExprPlusLoop (r.2.rest.length + 2) r.2 r.1

/-- `parseConditionPrimary` (parser_v2.go:536-540): a primary expression
that advances past itself. -/
def parseConditionPrimary (p : PState) : Option Expression × PState :=
  let r := parseExpression p
  (r.1, nextTok r.2)

/-- `parseUnary` (parser_v2.go:517-531): `not` chains over a condition
primary. -/
def parseUnaryC : Nat → PState → Option Expression × PState
  | 0, p => (none, p)
  | f + 1, p =>
    if p.cur.type = .NOT then
      let r := parseUnaryC f (nextTok p)
      (some (.unaryExpr "not" (r.1.getD .exprNil)), r.2)
    else parseConditionPrimary p

/-- The comparison operator of a token, if any (parser_v2.go:485-502). -/
def cmpOpOf : V2TokType → Option String
  | .EQ => some "=="
  | .NE => some "!="
  | .GT => some ">"
  | .LT => some "<"
  | .GTE => some ">="
  | .LTE => some "<="
  | _ => none

/-- The operator loop of `parseComparison` (parser_v2.go:485-512). -/
def parseComparisonLoop : Nat → PState → Option Expression → Option Expression × PState
  | 0, p, left => (left, p)
  | f + 1, p, left =>
    match cmpOpOf p.cur.type with
    | some op =>
      let p2 := nextTok p
      let r := parseUnaryC (p2.rest.length + 2) p2
      parseComparisonLoop f r.2 (some (.binaryExpr op (left.getD .exprNil) (r.1.getD .exprNil)))
    | none => (left, p)

/-- `parseComparison` (parser_v2.go:482-515). -/
def parseComparison (p : PState) : Option Expression × PState :=
  let r := parseUnaryC (p.rest.length + 2) p
  parseComparisonLoop (r.2.rest.length + 2) r.2 r.1

/-- The operator loop of `parseLogicalAnd` (parser_v2.go:466-477). -/
def parseAndLoop : Nat → PState → Option Expression → Option Expression × PState
  | 0, p, left => (left, p)
  | f + 1, p, left =>
    if p.cur.type = .AND then
      let r := parseComparison (nextTok p)
      parseAndLoop f r.2 (some (.binaryExpr "and" (left.getD .exprNil) (r.1.getD .exprNil)))
    else (left, p)

/-- `parseLogicalAnd` (parser_v2.go:463-480). -/
def parseLogicalAnd (p : PState) : Option Expression × PState :=
  let r := parseComparison p
  parseAndLoop (r.2.rest.length + 2) r.2 r.1

/-- The operator loop of `parseLogicalOr` (parser_v2.go:447-458). -/
def parseOrLoop : Nat → PState → Option Expression → Option Expression × PState
  | 0, p, left => (left, p)
  | f + 1, p, left =>
    if p.cur.type = .OR then
      let r := parseLogicalAnd (nextTok p)
      parseOrLoop f r.2 (some (.binaryExpr "or" (left.getD .exprNil) (r.1.getD .exprNil)))
    else (left, p)

/-- `parseLogicalOr` (parser_v2.go:444-461). -/
def parseLogicalOr (p : PState) : Option Expression × PState :=
  let r := parseLogicalAnd p
  parseOrLoop (r.2.rest.length + 2) r.2 r.1

/-- `parseConditionExpression` (parser_v2.go:440-442). -/
def parseConditionExpression (p : PState) : Option Expression × PState :=
  parseLogicalOr p

/-- `parseTimeoutExpression` (parser_v2.go:628-652): merges an adjacent
number and bare-identifier unit into one unquoted string literal (e.g.
`30` + `s` → `"30s"`), else parses a normal expression. -/
def parseTimeoutExpression (p : PState) : Option Expression × PState :=
  if p.cur.type = .INT ∨ p.cur.type = .FLOAT then
    if p.peek.type = .IDENT then
      let numStr := p.cur.literal
      let p := nextTok p
      (some (.stringLit (numStr ++ p.cur.literal) false), p)
    else parseExpression p
  else parseExpression p

/-- `parseImportStmt` (parser_v2.go:134-145). -/
def parseImportStmt (p : PState) : Option Statement × PState :=
  let r := expectPeek p .STRING
  if r.1 then (some (.importStmt r.2.cur.literal), r.2) else (none, r.2)

/-- `parseEchoStmt` (parser_v2.go:288-301). -/
def parseEchoStmt (p : PState) : Option Statement × PState :=
  let p := nextTok p
  if p.cur.type ≠ .NEWLINE ∧ p.cur.type ≠ .EOF then
    let r := parseExpression p
    (some (.echo r.1), r.2)
  else (some (.echo none), p)

end Haiku

namespace Haiku

mutual

/-- `parseStatement` (parser_v2.go:89-132): skips newlines/comments,
then dispatches on the current token; unknown tokens at statement
position are skipped (`none`), not errors.  `none` also stands for the
nil statement pointers failed sub-parsers return (Go wraps those in a
non-nil interface, observable only in parses that error out anyway). -/
def parseStatement (fuel : Nat) (p : PState) : Option Statement × PState :=
  match fuel with
  | 0 => (none, p)
  | fuel + 1 =>
    let p := skipNLComments p
    match p.cur.type with
    | .EOF => (none, p)
    | .IMPORT => parseImportStmt p
    | .AT => parseVarDefStmt fuel p
    | .PARALLEL => parseParallelForStmt fuel p
    | .FOR => parseForStmt fuel false 0 p
    | .IF => parseIfStmt fuel p
    | .ECHO => parseEchoStmt p
    | .QUESTION => parseQuestionIfStmt fuel p
    | .TRIPLE_DASH => (some .separator, p)
    | .GET | .POST | .PUT | .DELETE | .PATCH | .HEAD | .OPTIONS => parseRequestStmt fuel p
    | .DEDENT => (none, p)
    | .HEADERS | .BODY => (none, p)
    | .INDENT => (none, nextTok p)
    | _ => (none, nextTok p)

/-- `parseVarDefStmt` (parser_v2.go:147-179): `@` then an identifier (or
the `timeout`/`headers`/`body` keywords used as names), then either an
indented block value, a same-line expression value, or no value. -/
def parseVarDefStmt (fuel : Nat) (p : PState) : Option Statement × PState :=
  match fuel with
  | 0 => (none, p)
  | fuel + 1 =>
    let p := nextTok p
    if p.cur.type = .IDENT ∨ p.cur.type = .TIMEOUT ∨ p.cur.type = .HEADERS ∨
        p.cur.type = .BODY then
      let name := p.cur.literal
      let p := nextTok p
      if p.cur.type = .NEWLINE then
        let p := nextTok p
        if p.cur.type = .INDENT then
          let r := parseBlockExpr fuel p
          (some (.varDef name (some (.blockExpr r.1))), r.2)
        else (some (.varDef name none), p)
      else if p.cur.type ≠ .EOF ∧ p.cur.type ≠ .DEDENT then
        let r := parseExpression p
        (some (.varDef name r.1), r.2)
      else (some (.varDef name none), p)
    else (none, addError p "expected identifier after @")

/-- `parseParallelForStmt` (parser_v2.go:181-205): `parallel`, an
optional concurrency integer (`strconv.Atoi` with the error ignored),
then a `for` statement with the parallel flag set. -/
def parseParallelForStmt (fuel : Nat) (p : PState) : Option Statement × PState :=
  match fuel with
  | 0 => (none, p)
  | fuel + 1 =>
    let p := nextTok p
    let q : Int × PState :=
      if p.cur.type = .INT then ((parseInt64 p.cur.literal).getD 0, nextTok p) else (0, p)
    if q.2.cur.type = .FOR then parseForStmt fuel true q.1 q.2
    else (none, addError q.2 "expected 'for' after 'parallel'")

/-- `parseForStmt` (parser_v2.go:207-286): either the simplified numeric
form (`for <int-or-float>`, binding the default item variable `index`)
or the full form (`for $x in e` / `for $i, $x in e`), followed by an
optional indented body that stops at DEDENT, EOF or a `---`
separator. -/
def parseForStmt (fuel : Nat) (par : Bool) (conc : Int) (p : PState) :
    Option Statement × PState :=
  match fuel with
  | 0 => (none, p)
  | fuel + 1 =>
    if p.peek.type = .INT ∨ p.peek.type = .FLOAT then
      let p := nextTok p
      let r := parseExpression p
      parseForBody fuel "index" "" (r.1.getD .exprNil) par conc r.2
    else
      let e1 := expectPeek p .DOLLAR
      if !e1.1 then (none, e1.2)
      else
        let e2 := expectPeek e1.2 .IDENT
        if !e2.1 then (none, e2.2)
        else
          let firstVar := e2.2.cur.literal
          let p := nextTok e2.2
          if p.cur.type = .COMMA then
            let p := nextTok p
            if p.cur.type ≠ .DOLLAR then
              (none, addError p "expected $ after comma in for statement")
            else
              let p := nextTok p
              if p.cur.type ≠ .IDENT then
                (none, addError p "expected identifier after $ in for statement")
              else
                let itemVar := p.cur.literal
                parseForIn fuel firstVar itemVar par conc (nextTok p)
          else parseForIn fuel "" firstVar par conc p

/-- The `in <iterable>` tail of the full `for` form
(parser_v2.go:252-261). -/
def parseForIn (fuel : Nat) (indexVar itemVar : String) (par : Bool) (conc : Int)
    (p : PState) : Option Statement × PState :=
  match fuel with
  | 0 => (none, p)
  | fuel + 1 =>
    if p.cur.type ≠ .IN then (none, addError p "expected 'in' in for statement")
    else
      let p := nextTok p
      let r := parseExpression p
      parseForBody fuel itemVar indexVar (r.1.getD .exprNil) par conc r.2

/-- The loop-body tail of `parseForStmt` (parser_v2.go:264-283): skip to
the newline; when an INDENT follows, parse statements until DEDENT, EOF
or `---`. -/
def parseForBody (fuel : Nat) (itemVar indexVar : String) (iterable : Expression)
    (par : Bool) (conc : Int) (p : PState) : Option Statement × PState :=
  match fuel with
  | 0 => (none, p)
  | fuel + 1 =>
    let p := skipToNewline p
    if p.peek.type = .INDENT then
      let p := nextTok (nextTok p)
      let r := parseForBodyLoop fuel p []
      (some (.forStmt itemVar indexVar iterable r.1 par conc), r.2)
    else (some (.forStmt itemVar indexVar iterable [] par conc), p)

/-- The statement loop inside a `for` body (parser_v2.go:393-399). -/
def parseForBodyLoop (fuel : Nat) (p : PState) (acc : List Statement) :
    List Statement × PState :=
  match fuel with
  | 0 => (acc, p)
  | fuel + 1 =>
    if p.cur.type = .DEDENT ∨ p.cur.type = .EOF ∨ p.cur.type = .TRIPLE_DASH then (acc, p)
    else
      let r := parseStatement fuel p
      let acc :=
        match r.1 with
        | some s => acc ++ [s]
        | none => acc
      parseForBodyLoop fuel (nextTok r.2) acc

/-- `parseIfStmt` (parser_v2.go:309-351): `if cond`, an indented body,
and an optional `else` body introduced at the enclosing DEDENT. -/
def parseIfStmt (fuel : Nat) (p : PState) : Option Statement × PState :=
  match fuel with
  | 0 => (none, p)
  | fuel + 1 =>
    let rc := parseConditionExpression (nextTok p)
    let p := skipToNewline rc.2
    let rb := parseIndentedBody fuel p
    let branches := [IfBranch.mk (rc.1.getD .exprNil) rb.1]
    let p := rb.2
    if p.cur.type = .DEDENT ∧ p.peek.type = .ELSE then
      let p := nextTok (nextTok p)
      let p := skipToNewline p
      let re := parseIndentedBody fuel p
      (some (.ifStmt branches re.1), re.2)
    else (some (.ifStmt branches []), p)

/-- `parseQuestionIfStmt` (parser_v2.go:353-409): the terse
`? cond ... : cond ... : ...` form as a chain of branches with an
optional unconditional final branch. -/
def parseQuestionIfStmt (fuel : Nat) (p : PState) : Option Statement × PState :=
  match fuel with
  | 0 => (none, p)
  | fuel + 1 =>
    let rc := parseConditionExpression (nextTok p)
    let p := skipToNewline rc.2
    let rb := parseIndentedBody fuel p
    let r := parseQuestionLoop fuel rb.2 [IfBranch.mk (rc.1.getD .exprNil) rb.1]
    (some (.ifStmt r.1 r.2.1), r.2.2)

/-- The `:`-branch loop of `parseQuestionIfStmt`
(parser_v2.go:379-404); returns the branches, the else body, and the
parser state. -/
def parseQuestionLoop (fuel : Nat) (p : PState) (brs : List IfBranch) :
    List IfBranch × List Statement × PState :=
  match fuel with
  | 0 => (brs, [], p)
  | fuel + 1 =>
    if p.cur.type = .DEDENT ∧ p.peek.type = .COLON then
      let p := nextTok (nextTok p)
      if p.cur.type = .NEWLINE then
        let re := parseIndentedBody fuel p
        (brs, re.1, re.2)
      else
        let rc := parseConditionExpression p
        let p := skipToNewline rc.2
        let rb := parseIndentedBody fuel p
        parseQuestionLoop fuel rb.2 (brs ++ [IfBranch.mk (rc.1.getD .exprNil) rb.1])
    else (brs, [], p)

/-- `parseIndentedBody` (parser_v2.go:415-438): parses an indented
statement block, leaving the current token at the terminating DEDENT. -/
def parseIndentedBody (fuel : Nat) (p : PState) : List Statement × PState :=
  match fuel with
  | 0 => ([], p)
  | fuel + 1 =>
    if p.peek.type ≠ .INDENT then ([], p)
    else parseIndentedBodyLoop fuel (nextTok (nextTok p)) []

/-- The statement loop of `parseIndentedBody` (parser_v2.go:425-434):
advances past a parsed statement only when it did not already stop at a
block terminator. -/
def parseIndentedBodyLoop (fuel : Nat) (p : PState) (acc : List Statement) :
    List Statement × PState :=
  match fuel with
  | 0 => (acc, p)
  | fuel + 1 =>
    if p.cur.type = .DEDENT ∨ p.cur.type = .EOF ∨ p.cur.type = .TRIPLE_DASH then (acc, p)
    else
      let r := parseStatement fuel p
      let acc :=
        match r.1 with
        | some s => acc ++ [s]
        | none => acc
      let p2 := r.2
      let p3 :=
        if p2.cur.type = .DEDENT ∨ p2.cur.type = .EOF ∨ p2.cur.type = .TRIPLE_DASH then p2
        else nextTok p2
      parseIndentedBodyLoop fuel p3 acc

/-- `parseRequestStmt` (parser_v2.go:542-625): the method token, a URL
expression, then the `headers`/`body`/`timeout` section loop at the same
indentation. -/
def parseRequestStmt (fuel : Nat) (p : PState) : Option Statement × PState :=
  match fuel with
  | 0 => (none, p)
  | fuel + 1 =>
    let method := p.cur.literal
    let ru := parseExpression (nextTok p)
    let p := skipToNewline ru.2
    let p := if p.cur.type = .NEWLINE then nextTok p else p
    parseReqSections fuel method (ru.1.getD .exprNil) none none none p

/-- The `headers`/`body`/`timeout` section loop of `parseRequestStmt`
(parser_v2.go:564-622). -/
def parseReqSections (fuel : Nat) (method : String) (url : Expression)
    (headers : Option (List Entry)) (body : Option Expression)
    (timeoutE : Option Expression) (p : PState) : Option Statement × PState :=
  match fuel with
  | 0 => (some (.request method url headers body timeoutE), p)
  | fuel + 1 =>
    let p := skipNLComments p
    if p.cur.type = .HEADERS then
      let p := skipNewlines (nextTok p)
      if p.cur.type = .INDENT then
        let r := parseBlockExpr fuel p
        let p2 := if r.2.cur.type = .DEDENT then nextTok r.2 else r.2
        parseReqSections fuel method url (some r.1) body timeoutE p2
      else parseReqSections fuel method url headers body timeoutE p
    else if p.cur.type = .BODY then
      let p := nextTok p
      if p.cur.type = .NEWLINE then
        let p := nextTok p
        if p.cur.type = .INDENT then
          let r := parseBlockExpr fuel p
          let p2 := if r.2.cur.type = .DEDENT then nextTok r.2 else r.2
          parseReqSections fuel method url headers (some (.blockExpr r.1)) timeoutE p2
        else parseReqSections fuel method url headers body timeoutE p
      else if p.cur.type ≠ .EOF ∧ p.cur.type ≠ .DEDENT then
        let r := parseExpression p
        let p2 := skipToNewline r.2
        let p3 := if p2.cur.type = .NEWLINE then nextTok p2 else p2
        parseReqSections fuel method url headers r.1 timeoutE p3
      else parseReqSections fuel method url headers body timeoutE p
    else if p.cur.type = .TIMEOUT then
      let r := parseTimeoutExpression (nextTok p)
      let p2 := skipToNewlineOrDedent r.2
      let p3 := if p2.cur.type = .NEWLINE then nextTok p2 else p2
      parseReqSections fuel method url headers body r.1 p3
    else (some (.request method url headers body timeoutE), p)

/-- `parseBlockExpr` (parser_v2.go:654-677): entries until DEDENT or
EOF, skipping newlines and comments. -/
def parseBlockExpr (fuel : Nat) (p : PState) : List Entry × PState :=
  match fuel with
  | 0 => ([], p)
  | fuel + 1 => parseBlockLoop fuel (nextTok p) []

/-- The entry loop of `parseBlockExpr` (parser_v2.go:661-674). -/
def parseBlockLoop (fuel : Nat) (p : PState) (acc : List Entry) : List Entry × PState :=
  match fuel with
  | 0 => (acc, p)
  | fuel + 1 =>
    if p.cur.type = .DEDENT ∨ p.cur.type = .EOF then (acc, p)
    else if p.cur.type = .NEWLINE ∨ p.cur.type = .COMMENT then parseBlockLoop fuel (nextTok p) acc
    else
      let r := parseEntry fuel p
      let acc :=
        match r.1 with
        | some en => acc ++ [en]
        | none => acc
      parseBlockLoop fuel (nextTok r.2) acc

/-- `parseEntry` (parser_v2.go:679-727): an identifier/string first
token is a key when a value follows on the line, else the entry is an
array item; otherwise the whole line is a standalone value; a nested
indented block replaces the value. -/
def parseEntry (fuel : Nat) (p : PState) : Option Entry × PState :=
  match fuel with
  | 0 => (none, p)
  | fuel + 1 =>
    if p.cur.type = .IDENT ∨ p.cur.type = .STRING then
      let firstVal := p.cur.literal
      let firstIsStr := p.cur.type = .STRING
      let p := nextTok p
      if p.cur.type ≠ .NEWLINE ∧ p.cur.type ≠ .DEDENT ∧ p.cur.type ≠ .EOF ∧
          p.cur.type ≠ .COMMENT then
        let r := parseExpression p
        parseEntryNested fuel (Entry.mk firstVal (r.1.getD .exprNil)) r.2
      else parseEntryNested fuel (Entry.mk "" (.stringLit firstVal firstIsStr)) p
    else
      let r := parseExpression p
      parseEntryNested fuel (Entry.mk "" (r.1.getD .exprNil)) r.2

/-- The nested-block check of `parseEntry` (parser_v2.go:721-724). -/
def parseEntryNested (fuel : Nat) (en : Entry) (p : PState) : Option Entry × PState :=
  match fuel with
  | 0 => (some en, p)
  | fuel + 1 =>
    if p.peek.type = .INDENT then
      let r := parseBlockExpr fuel (nextTok p)
      (some (Entry.mk en.key (.blockExpr r.1)), r.2)
    else (some en, p)

end

/-- The statement loop of `Parse` (parser_v2.go:71-87). -/
def parseLoop (fuel : Nat) (p : PState) (acc : List Statement) : Option Program × PState :=
  match fuel with
  | 0 => (none, p)
  | fuel + 1 =>
    if p.cur.type = .EOF then (if p.errors.isEmpty then some acc else none, p)
    else
      let r := parseStatement fuel p
      let acc :=
        match r.1 with
        | some s => acc ++ [s]
        | none => acc
      parseLoop fuel (nextTok r.2) acc

/-- `Parse`/`ParseFile` over an explicit token stream: `none` models the
aggregated parse-error return (and fuel exhaustion). -/
def parseTokens (fuel : Nat) (toks : List V2Tok) : Option Program :=
  (parseLoop fuel (pNew toks) []).1

end Haiku

namespace Haiku

/-! ## Shared helpers for the claim theorems -/

/-- A trivial externals stub (empty environment, no files, failing
codecs, no import parser) used by concrete test programs. -/
def extStub : Externals :=
  { getenv := fun _ => ""
    readFile := fun _ => none
    jsonUnmarshal := fun _ => none
    base64Decode := fun _ => none
    parseImportedFile := fun _ => none }

/-- Interpolation leaves a `$`-free character list untouched. -/
theorem interpolateGo_no_dollar (ext : Externals) (e : Evaluator) :
    ∀ (fuel : Nat) (cs : List Char), (∀ c ∈ cs, c ≠ '$') →
      interpolateGo ext e fuel cs = cs := by
  intro fuel
  induction fuel with
  | zero => intro cs _; rfl
  | succ n ih =>
    intro cs h
    cases cs with
    | nil => rfl
    | cons c rest =>
      have hc : c ≠ '$' := h c (by simp)
      have hrest : ∀ x ∈ rest, x ≠ '$' := fun x hm => h x (by simp [hm])
      simp only [interpolateGo, if_neg hc]
      rw [ih rest hrest]

/-- Interpolation leaves a `$`-free string untouched. -/
theorem interpolateString_no_dollar (ext : Externals) (e : Evaluator) (s : String)
    (h : ∀ c ∈ s.data, c ≠ '$') : interpolateString ext e s = s := by
  unfold interpolateString
  rw [interpolateGo_no_dollar ext e _ _ h]

/-- C4, type inference of unquoted scalars.  The spec's inference table
on its own examples; the three parse-outcome laws connecting `inferType`
to the integer and decimal parses; and the quoted-string path: a quoted
literal is never type-inferred, only interpolated, and interpolation
keeps a `$`-free text (internal spaces included) unchanged. -/
theorem C4_inferType_unquoted_scalars :
    (inferType "John" = .vStr "John" ∧ inferType "25" = .vInt 25 ∧
      inferType "98.5" = .vFloat (197 / 2) ∧
      inferType "true" = .vBool true ∧ inferType "false" = .vBool false ∧
      inferType "_" = .vNull ∧ inferType "null" = .vNull ∧ inferType "nil" = .vNull) ∧
    (∀ s i, parseInt64 s = some i → inferType s = .vInt i) ∧
    (∀ s q, parseInt64 s = none → goParseFloat s = some q → inferType s = .vFloat q) ∧
    (∀ s, s ≠ "true" → s ≠ "false" → s ≠ "_" → s ≠ "null" → s ≠ "nil" →
      parseInt64 s = none → goParseFloat s = none → inferType s = .vStr s) ∧
    (∀ ext e s, evalExpr ext e (.stringLit s true) = .vStr (interpolateString ext e s)) ∧
    (∀ ext e s, (∀ c ∈ s.data, c ≠ '$') → evalExpr ext e (.stringLit s true) = .vStr s) := by
  have h985 : goParseFloat "98.5" = some (197 / 2) := by
    have h0 : "98.5".data = ['9', '8', '.', '5'] := rfl
    have h1 : splitSign ['9', '8', '.', '5'] = (false, ['9', '8', '.', '5']) := rfl
    have h2 : List.takeWhile isDigitChar ['9', '8', '.', '5'] = ['9', '8'] := rfl
    have h3 : List.takeWhile isDigitChar ['5'] = ['5'] := rfl
    have h5 : digitsVal ['9', '8'] = 98 := rfl
    have h6 : digitsVal ['5'] = 5 := rfl
    unfold goParseFloat
    rw [h0, h1]
    simp only [h2, h3, h5, h6, List.drop, List.isEmpty, parseExpPart, List.length_cons,
      List.length_nil]
    norm_num [maxFloat64, h6, abs_of_pos]
  have hfloat : inferType "98.5" = .vFloat (197 / 2) := by
    unfold inferType
    rw [if_neg (show ¬("98.5" = "true") from by decide),
        if_neg (show ¬("98.5" = "false") from by decide),
        if_neg (show ¬((decide ("98.5" = "_") || decide ("98.5" = "null") ||
          decide ("98.5" = "nil")) = true) from by decide),
        show parseInt64 "98.5" = (none : Option Int) from by decide, h985]
  refine ⟨⟨rfl, rfl, hfloat, rfl, rfl, rfl, rfl, rfl⟩, ?_, ?_, ?_, ?_, ?_⟩
  · intro s i h
    unfold inferType
    by_cases h1 : s = "true"
    · rw [h1, show parseInt64 "true" = (none : Option Int) from by decide] at h; cases h
    by_cases h2 : s = "false"
    · rw [h2, show parseInt64 "false" = (none : Option Int) from by decide] at h; cases h
    by_cases h3 : s = "_"
    · rw [h3, show parseInt64 "_" = (none : Option Int) from by decide] at h; cases h
    by_cases h4 : s = "null"
    · rw [h4, show parseInt64 "null" = (none : Option Int) from by decide] at h; cases h
    by_cases h5 : s = "nil"
    · rw [h5, show parseInt64 "nil" = (none : Option Int) from by decide] at h; cases h
    simp [h1, h2, h3, h4, h5, h]
  · intro s q hi hf
    unfold inferType
    by_cases h1 : s = "true"
    · rw [h1, show goParseFloat "true" = (none : Option Rat) from by decide] at hf; cases hf
    by_cases h2 : s = "false"
    · rw [h2, show goParseFloat "false" = (none : Option Rat) from by decide] at hf; cases hf
    by_cases h3 : s = "_"
    · rw [h3, show parseInt64 "_" = (none : Option Int) from by decide] at hi
      rw [h3, show goParseFloat "_" = (none : Option Rat) from by decide] at hf; cases hf
    by_cases h4 : s = "null"
    · rw [h4, show goParseFloat "null" = (none : Option Rat) from by decide] at hf; cases hf
    by_cases h5 : s = "nil"
    · rw [h5, show goParseFloat "nil" = (none : Option Rat) from by decide] at hf; cases hf
    simp [h1, h2, h3, h4, h5, hi, hf]
  · intro s h1 h2 h3 h4 h5 hi hf
    unfold inferType
    simp [h1, h2, h3, h4, h5, hi, hf]
  · intro ext e s; rfl
  · intro ext e s h
    show Value.vStr (interpolateString ext e s) = .vStr s
    rw [interpolateString_no_dollar ext e s h]

/-- Witness for C4: the integer-parse law at the concrete input `25`. -/
theorem C4_witness :
    parseInt64 "25" = some 25 ∧ inferType "25" = .vInt 25 :=
  ⟨by decide, C4_inferType_unquoted_scalars.2.1 "25" 25 (by decide)⟩

end Haiku

namespace Haiku

/-- C10, `@timeout` with an unparseable duration: the value is still
bound in the current scope, the default timeout is unchanged, and no
error is raised (variable definitions never produce one); only a value
that parses replaces the default timeout. -/
theorem C10_timeout_vardef_invalid_duration :
    (∀ ext e expr msg, parseTimeout (evalExpr ext e expr) = .error msg →
      evalVarDef ext e "timeout" (some expr) =
        { e with scope := e.scope.set "timeout" (evalExpr ext e expr) }) ∧
    (∀ ext fuel e name value,
      (evalStatementCollect ext (fuel + 1) e (.varDef name value)).1 = none) ∧
    (∀ ext e expr d, parseTimeout (evalExpr ext e expr) = .ok d →
      evalVarDef ext e "timeout" (some expr) =
        { e with scope := e.scope.set "timeout" (evalExpr ext e expr), defaultTimeout := d }) := by
  refine ⟨?_, ?_, ?_⟩
  · intro ext e expr msg h
    simp [evalVarDef, h]
  · intro ext fuel e name value
    rfl
  · intro ext e expr d h
    simp [evalVarDef, h]

/-- Witness for C10: `@timeout abc` binds the string `"abc"` and keeps
the default timeout. -/
theorem C10_witness :
    parseTimeout (evalExpr extStub newEvaluator (.stringLit "abc" false)) =
      .error "no number found in timeout string: abc" ∧
    evalVarDef extStub newEvaluator "timeout" (some (.stringLit "abc" false)) =
      { newEvaluator with
          scope := newEvaluator.scope.set "timeout"
            (evalExpr extStub newEvaluator (.stringLit "abc" false)) } :=
  ⟨rfl, C10_timeout_vardef_invalid_duration.1 extStub newEvaluator (.stringLit "abc" false)
    "no number found in timeout string: abc" rfl⟩

/-- C9, `$_` chaining on the collecting path: after a request statement
succeeds, the previous response is the just-synthesized descriptor
itself, so `$_` resolves to the descriptor mapping and `$_.field`
navigates into it. -/
theorem C9_mock_prev_response :
    ∀ ext fuel e m url h b t req e',
      e.requestCallback = none →
      evalStatementCollect ext fuel e (.request m url h b t) = (none, e') →
      evalRequest ext e m url h b t = .ok req →
      e'.prevResponse = some req ∧
      e'.collectedRequests = e.collectedRequests ++ [req] ∧
      evalVarRef ext e' "_" [] = .vMap req ∧
      (∀ path, path ≠ [] → evalVarRef ext e' "_" path = getNestedValue (.vMap req) path) := by
  intro ext fuel e m url h b t req e' _hcb heval hreq
  cases fuel with
  | zero => simp [evalStatementCollect] at heval
  | succ n =>
    rw [show evalStatementCollect ext (n + 1) e (.request m url h b t) =
        (match evalRequest ext e m url h b t with
         | .error msg => (some msg, e)
         | .ok req =>
           (none, { e with collectedRequests := e.collectedRequests ++ [req],
                           prevResponse := some req })) from rfl, hreq] at heval
    have he' : e' = { e with collectedRequests := e.collectedRequests ++ [req],
                             prevResponse := some req } := by
      cases heval; rfl
    subst he'
    refine ⟨rfl, rfl, rfl, ?_⟩
    intro path hpath
    simp only [evalVarRef, if_pos rfl]
    rw [List.isEmpty_eq_false_iff_exists_mem.2 ?_]
    · simp
    · cases path with
      | nil => exact absurd rfl hpath
      | cons a rest => exact ⟨a, by simp⟩

/-- Witness for C9: a concrete request statement evaluated in the fresh
evaluator. -/
theorem C9_witness :
    evalStatementCollect extStub 5 newEvaluator (.request "get" (.stringLit "u1" true) none none none) =
      (none, { newEvaluator with
                 collectedRequests := [[("get", .vStr "u1"), ("timeout", .vDur 30000000000)]],
                 prevResponse := some [("get", .vStr "u1"), ("timeout", .vDur 30000000000)] }) ∧
    ({ newEvaluator with
         collectedRequests := [[("get", .vStr "u1"), ("timeout", .vDur 30000000000)]],
         prevResponse := some [("get", .vStr "u1"), ("timeout", .vDur 30000000000)]
         : Evaluator }).prevResponse =
      some [("get", .vStr "u1"), ("timeout", .vDur 30000000000)] :=
  ⟨rfl,
    (C9_mock_prev_response extStub 5 newEvaluator "get" (.stringLit "u1" true) none none none
      [("get", .vStr "u1"), ("timeout", .vDur 30000000000)] _ rfl rfl rfl).1⟩

/-- The sequential loop of `evalForCollect` restores the saved scope
after every iteration, on success and on error alike. -/
theorem evalForItems_scope (ext : Externals) (itemVar indexVar : String)
    (body : List Statement) :
    ∀ (fuel : Nat) (e : Evaluator) (items : List Value) (idx : Nat),
      (evalForItems ext fuel e itemVar indexVar body items idx).2.scope = e.scope := by
  intro fuel
  induction fuel with
  | zero => intros; rfl
  | succ n ih =>
    intro e items idx
    cases items with
    | nil => rfl
    | cons item rest =>
      simp only [evalForItems]
      cases hb : evalBodyStmts ext n
          { e with scope :=
              (if indexVar != "" then
                ((Scope.newScope e.scope).set itemVar item).set indexVar (.vInt idx)
              else (Scope.newScope e.scope).set itemVar item) } body with
      | mk err e2 =>
        cases err with
        | some msg => simp [hb]
        | none => simp [hb, ih]

/-- C8, scope semantics: lookup returns the innermost frame's binding and
walks to the parent only on absence; `Set` writes only the frame it is
invoked on (parent link untouched); a binding in a fresh child scope
shadows an identically-named parent binding without overwriting it; and
at the evaluator level a sequential for loop — whose iterations bind
their variables in child scopes — leaves the enclosing scope exactly as
it was. -/
theorem C8_scope_shadowing :
    (∀ vs p name v, lookupAssoc vs name = some v → Scope.get (.child vs p) name = some v) ∧
    (∀ vs par name, lookupAssoc vs name = none →
      Scope.get (.child vs par) name = par.get name) ∧
    (∀ vs name, lookupAssoc vs name = none → Scope.get (.root vs) name = none) ∧
    (∀ s name v, (Scope.set s name v).parent = s.parent ∧
      (Scope.set s name v).vars = setAssoc s.vars name v) ∧
    (∀ par name v w, Scope.get par name = some w →
      Scope.get ((Scope.newScope par).set name v) name = some v ∧
      ((Scope.newScope par).set name v).parent = some par) ∧
    (∀ ext fuel e itemVar indexVar iterable body conc,
      (evalStatementCollect ext fuel e
        (.forStmt itemVar indexVar iterable body false conc)).2.scope = e.scope) := by
  refine ⟨?_, ?_, ?_, ?_, ?_, ?_⟩
  · intro vs p name v h
    simp [Scope.get, h]
  · intro vs par name h
    simp [Scope.get, h]
  · intro vs name h
    simp [Scope.get, h]
  · intro s name v
    cases s <;> exact ⟨rfl, rfl⟩
  · intro par name v w _h
    refine ⟨?_, rfl⟩
    simp [Scope.newScope, Scope.set, Scope.get, setAssoc, lookupAssoc, Scope.vars, Scope.parent]
  · intro ext fuel e itemVar indexVar iterable body conc
    cases fuel with
    | zero => rfl
    | succ n =>
      show (evalForCollect ext n e itemVar indexVar iterable body false).2.scope = e.scope
      cases n with
      | zero => rfl
      | succ m =>
        simp only [evalForCollect]
        cases hx : extractItems (evalExpr ext e iterable) with
        | error msg => simp [hx]
        | ok items => simp [hx, evalForItems_scope]

/-- Witness for C8: the shadowing law at a concrete parent scope and the
loop law at a concrete loop. -/
theorem C8_witness :
    Scope.get (Scope.root [("x", .vStr "outer")]) "x" = some (.vStr "outer") ∧
    Scope.get ((Scope.newScope (Scope.root [("x", .vStr "outer")])).set "x" (.vStr "inner"))
      "x" = some (.vStr "inner") :=
  ⟨rfl, (C8_scope_shadowing.2.2.2.2.1 (Scope.root [("x", .vStr "outer")]) "x"
    (.vStr "inner") (.vStr "outer") rfl).1⟩

end Haiku

namespace Haiku

/-- Whether a statement is a request statement. -/
def isRequestStmt : Statement → Bool
  | .request .. => true
  | _ => false

/-- A loop body with a variable definition before the request that uses
it (the request URL interpolates `$x`). -/
def c2ParBody : List Statement :=
  [.varDef "x" (some (.stringLit "A" true)),
   .request "get" (.stringLit "u-$x" true) none none none]

/-- `parallel for $it in 1` over `c2ParBody`. -/
def c2ParLoop : Statement :=
  .forStmt "it" "" (.numberLit (some 1) none) c2ParBody true 0

/-- The same loop without the parallel flag. -/
def c2SeqLoop : Statement :=
  .forStmt "it" "" (.numberLit (some 1) none) c2ParBody false 0

/-- Counterexample for C2 as stated: in a parallel loop body the
variable definition is not evaluated — the descriptor keeps the
unresolved `$x` — whereas the sequential loop does evaluate it via the
regular statement path, producing `u-A`. -/
theorem C2_counterexample :
    (EvalToRequests extStub 100 newEvaluator [c2ParLoop]).1 =
      some [[("get", .vStr "u-$x"), ("timeout", .vDur 30000000000)]] ∧
    (EvalToRequests extStub 100 newEvaluator [c2SeqLoop]).1 =
      some [[("get", .vStr "u-A"), ("timeout", .vDur 30000000000)]] ∧
    ("u-$x" : String) ≠ "u-A" :=
  ⟨rfl, rfl, by decide⟩

/-- C2 as amended: each parallel task examines only the Request
statements of the loop body — in the collecting task loop and in the
with-output task loop alike, the task's outcome is unchanged when every
non-request statement is dropped from the body (non-request statements
are skipped, not evaluated). -/
theorem C2_parallel_task_requests_only :
    (∀ ext te body acc, parallelTaskLoop ext te body acc =
      parallelTaskLoop ext te (body.filter isRequestStmt) acc) ∧
    (∀ ext te body, parallelTaskOutputLoop ext te body =
      parallelTaskOutputLoop ext te (body.filter isRequestStmt)) := by
  constructor
  · intro ext te body
    induction body with
    | nil => intro acc; rfl
    | cons stmt rest ih =>
      intro acc
      cases stmt with
      | request m url h b t =>
        simp only [List.filter, isRequestStmt, parallelTaskLoop]
        cases evalRequest ext te m url h b t with
        | error msg => rfl
        | ok req => exact ih (acc ++ [req])
      | importStmt path => simpa [List.filter, isRequestStmt, parallelTaskLoop] using ih acc
      | varDef n v => simpa [List.filter, isRequestStmt, parallelTaskLoop] using ih acc
      | forStmt a b c d f g => simpa [List.filter, isRequestStmt, parallelTaskLoop] using ih acc
      | ifStmt a b => simpa [List.filter, isRequestStmt, parallelTaskLoop] using ih acc
      | echo v => simpa [List.filter, isRequestStmt, parallelTaskLoop] using ih acc
      | separator => simpa [List.filter, isRequestStmt, parallelTaskLoop] using ih acc
      | stmtNil => simpa [List.filter, isRequestStmt, parallelTaskLoop] using ih acc
  · intro ext te body
    induction body with
    | nil => rfl
    | cons stmt rest ih =>
      cases stmt with
      | request m url h b t =>
        simp only [List.filter, isRequestStmt, parallelTaskOutputLoop]
        cases hr : evalRequest ext te m url h b t with
        | error msg => simp [hr]
        | ok req =>
          simp only [hr]
          cases hcb : te.requestCallback with
          | none => simpa using ih
          | some cb =>
            cases hc : cb req with
            | error msg => simp [hc]
            | ok resp => simpa [hc] using ih
      | importStmt path => simpa [List.filter, isRequestStmt, parallelTaskOutputLoop] using ih
      | varDef n v => simpa [List.filter, isRequestStmt, parallelTaskOutputLoop] using ih
      | forStmt a b c d f g => simpa [List.filter, isRequestStmt, parallelTaskOutputLoop] using ih
      | ifStmt a b => simpa [List.filter, isRequestStmt, parallelTaskOutputLoop] using ih
      | echo v => simpa [List.filter, isRequestStmt, parallelTaskOutputLoop] using ih
      | separator => simpa [List.filter, isRequestStmt, parallelTaskOutputLoop] using ih
      | stmtNil => simpa [List.filter, isRequestStmt, parallelTaskOutputLoop] using ih

/-- A request statement that evaluates cleanly. -/
def c3Good : Statement := .request "get" (.stringLit "u1" true) none none none

/-- A request statement whose timeout expression fails to parse — a hard
evaluation error. -/
def c3Bad : Statement := .request "get" (.stringLit "u2" true) none none (some (.boolLit true))

/-- Counterexample for C3 as stated: a program that collects one
descriptor and then fails returns a nil descriptor list — not the
already-collected descriptors — alongside the error; the descriptors
stay only in the evaluator's internal collected list. -/
theorem C3_counterexample :
    (EvalToRequests extStub 10 newEvaluator [c3Good, c3Bad, c3Good]).1 = none ∧
    (EvalToRequests extStub 10 newEvaluator [c3Good, c3Bad, c3Good]).2.1 =
      some "invalid timeout value: true" ∧
    (EvalToRequests extStub 10 newEvaluator [c3Good, c3Bad, c3Good]).2.2.collectedRequests =
      [[("get", .vStr "u1"), ("timeout", .vDur 30000000000)]] :=
  ⟨rfl, rfl, rfl⟩

/-- C3 as amended: a statement error aborts evaluation at that statement
— appending further statements changes nothing; the returned descriptor
slice is nil whenever a statement error occurs; and the final evaluator
state is exactly the state at the failing statement, so the descriptors
collected before the failure remain in the evaluator's collected list
(they are not part of the returned value). -/
theorem C3_failfast_nil_return :
    (∀ ext fuel e stmts post msg e', evalSeq ext fuel e stmts = (some msg, e') →
      evalSeq ext fuel e (stmts ++ post) = (some msg, e')) ∧
    (∀ ext fuel e prog msg, (EvalToRequests ext fuel e prog).2.1 = some msg →
      (EvalToRequests ext fuel e prog).1 = none) ∧
    (∀ ext fuel e pre bad post msg e',
      evalSeq ext fuel { e with collectedRequests := [] } (pre ++ [bad]) = (some msg, e') →
      EvalToRequests ext fuel e (pre ++ (bad :: post)) = (none, some msg, e')) := by
  have ha : ∀ ext (stmts : List Statement) fuel e post msg e',
      evalSeq ext fuel e stmts = (some msg, e') →
      evalSeq ext fuel e (stmts ++ post) = (some msg, e') := by
    intro ext stmts
    induction stmts with
    | nil =>
      intro fuel e post msg e' h
      simp [evalSeq] at h
    | cons s rest ih =>
      intro fuel e post msg e' h
      cases fuel with
      | zero => exact h
      | succ n =>
        rw [List.cons_append]
        simp only [evalSeq] at h ⊢
        cases hs : evalStatementCollect ext n e s with
        | mk err e1 =>
          rw [hs] at h
          cases err with
          | some m => exact h
          | none => exact ih n e1 post msg e' h
  refine ⟨fun ext fuel e stmts post msg e' h => ha ext stmts fuel e post msg e' h, ?_, ?_⟩
  · intro ext fuel e prog msg h
    simp only [EvalToRequests] at h ⊢
    cases hs : evalSeq ext fuel { e with collectedRequests := [] } prog with
    | mk err e1 =>
      rw [hs] at h
      cases err with
      | some m => rfl
      | none => simp at h
  · intro ext fuel e pre bad post msg e' h
    have hh := ha ext (pre ++ [bad]) fuel { e with collectedRequests := [] } post msg e' h
    rw [List.append_assoc] at hh
    simp only [List.singleton_append] at hh
    simp only [EvalToRequests]
    rw [hh]

/-- Witness for C3: the fail-fast law applied to the concrete failing
program. -/
theorem C3_witness :
    ∃ e', evalSeq extStub 10 { newEvaluator with collectedRequests := [] } ([c3Good] ++ [c3Bad]) =
        (some "invalid timeout value: true", e') ∧
      EvalToRequests extStub 10 newEvaluator ([c3Good] ++ (c3Bad :: [c3Good])) =
        (none, some "invalid timeout value: true", e') :=
  ⟨_, rfl, C3_failfast_nil_return.2.2 extStub 10 newEvaluator [c3Good] c3Bad [c3Good]
    "invalid timeout value: true" _ rfl⟩

end Haiku

namespace Haiku

/-- Discriminator: string value. -/
def Value.isStrVal : Value → Bool
  | .vStr _ => true
  | _ => false

/-- Discriminator: integer value. -/
def Value.isIntVal : Value → Bool
  | .vInt _ => true
  | _ => false

/-- Discriminator: float value. -/
def Value.isFloatVal : Value → Bool
  | .vFloat _ => true
  | _ => false

/-- Discriminator: boolean value. -/
def Value.isBoolVal : Value → Bool
  | .vBool _ => true
  | _ => false

/-- Discriminator: a value handled by `compareValues`' default branch
(list, mapping, or duration). -/
def Value.isCollVal : Value → Bool
  | .vList _ => true
  | .vMap _ => true
  | .vDur _ => true
  | _ => false

/-- `charListCmp` returns zero exactly on equal lists. -/
theorem charListCmp_eq_zero_iff : ∀ cs ds : List Char, charListCmp cs ds = 0 ↔ cs = ds := by
  intro cs
  induction cs with
  | nil =>
    intro ds
    cases ds with
    | nil => simp [charListCmp]
    | cons d ds' => simp [charListCmp]
  | cons c cs' ih =>
    intro ds
    cases ds with
    | nil => simp [charListCmp]
    | cons d ds' =>
      simp only [charListCmp]
      by_cases h1 : c.toNat < d.toNat
      · simp only [if_pos h1]
        constructor
        · intro h; cases h
        · intro h
          injection h with h h'
          subst h
          exact absurd h1 (lt_irrefl _)
      · by_cases h2 : d.toNat < c.toNat
        · simp only [if_neg h1, if_pos h2]
          constructor
          · intro h; cases h
          · intro h
            injection h with h h'
            subst h
            exact absurd h2 (lt_irrefl _)
        · have hval : c.toNat = d.toNat := by omega
          have hcd : c = d := by
            have hv : c.val = d.val := by
              unfold Char.toNat at hval
              exact UInt32.toNat.inj hval
            exact Char.eq_of_val_eq hv
          simp [if_neg h1, if_neg h2, ih, hcd]

end Haiku

namespace Haiku

/-- Bridge between the character order used by `charListCmp` (code-point
naturals) and the order on `Char` itself. -/
theorem char_lt_iff_toNat (c d : Char) : c < d ↔ c.toNat < d.toNat := by
  simp [Char.lt_def, UInt32.lt_def, BitVec.lt_def, Char.toNat, UInt32.toNat]

/-- `charListCmp` is negative exactly on lexicographically smaller lists. -/
theorem charListCmp_neg_iff : ∀ cs ds : List Char,
    charListCmp cs ds < 0 ↔ List.Lex (· < ·) cs ds := by
  intro cs
  induction cs with
  | nil =>
    intro ds
    cases ds with
    | nil => simp [charListCmp]
    | cons d ds' =>
      constructor
      · intro _
        exact List.Lex.nil
      · intro _
        exact (by decide : (-1 : Int) < 0)
  | cons c cs' ih =>
    intro ds
    cases ds with
    | nil => simp [charListCmp]
    | cons d ds' =>
      simp only [charListCmp]
      by_cases h1 : c.toNat < d.toNat
      · simp only [if_pos h1]
        constructor
        · intro _
          exact List.Lex.rel ((char_lt_iff_toNat c d).mpr h1)
        · intro _
          norm_num
      · by_cases h2 : d.toNat < c.toNat
        · simp only [if_neg h1, if_pos h2]
          constructor
        
          · intro hc
            exact absurd hc (by norm_num)
          · intro h
            cases h with
            | cons h' => exact absurd h2 (lt_irrefl _)
            | rel hr =>
              have := (char_lt_iff_toNat c d).mp hr
              omega
        · have hval : c.toNat = d.toNat := by omega
          have hcd : c = d := by
            have hv : c.val = d.val := by
              unfold Char.toNat at hval
              exact UInt32.toNat.inj hval
            exact Char.eq_of_val_eq hv
          subst hcd
          simp only [if_neg h1, if_neg h2]
          rw [List.Lex.cons_iff]
          exact ih ds'

/-- Characterizes the negative branch of the three-way numeric compare
pattern used by `compareValues`. -/
theorem cmp3_neg_iff {α : Type} [LinearOrder α] (x y : α) :
    ((if x < y then (-1 : Int) else if x > y then 1 else 0) < 0) ↔ x < y := by
  split_ifs with h h'
  · simp [h]
  · simp only [gt_iff_lt] at h'
    have : ¬ x < y := h
    simp [this]
  · simp [h]

/-- Characterizes the zero branch of the three-way numeric compare
pattern used by `compareValues`. -/
theorem cmp3_eq_iff {α : Type} [LinearOrder α] (x y : α) :
    ((if x < y then (-1 : Int) else if x > y then 1 else 0) = 0) ↔ x = y := by
  split_ifs with h h'
  · simp [h.ne]
  · simp only [gt_iff_lt] at h'
    simp [h'.ne']
  · simp only [gt_iff_lt] at h'
    have : x = y := le_antisymm (not_lt.mp h') (not_lt.mp h)
    simp [this]

end Haiku

namespace Haiku

/-- C6: corrected comparison-operator semantics.  As claimed: integers,
int/float pairs (promoted exactly to the rational model) and floats
compare numerically; strings compare lexicographically (character
code-point order); booleans compare with false < true; null compares
equal only to null and below every non-null value; a string, integer,
float or boolean left operand compares as less-than against any
mismatched non-null right operand.  Contrary to the claim, a list, map
or duration left operand does not compare as less-than: `compareValues`
falls to its default branch, which renders both operands with Go `%v`
and compares the rendered texts. -/
theorem C6_compare_semantics :
    (∀ a b : Int, (compareValues (.vInt a) (.vInt b) < 0 ↔ a < b) ∧
      (compareValues (.vInt a) (.vInt b) = 0 ↔ a = b)) ∧
    (∀ (a : Int) (q : Rat), (compareValues (.vInt a) (.vFloat q) < 0 ↔ (a : Rat) < q) ∧
      (compareValues (.vInt a) (.vFloat q) = 0 ↔ (a : Rat) = q)) ∧
    (∀ (q : Rat) (a : Int), (compareValues (.vFloat q) (.vInt a) < 0 ↔ q < (a : Rat)) ∧
      (compareValues (.vFloat q) (.vInt a) = 0 ↔ q = (a : Rat))) ∧
    (∀ p q : Rat, (compareValues (.vFloat p) (.vFloat q) < 0 ↔ p < q) ∧
      (compareValues (.vFloat p) (.vFloat q) = 0 ↔ p = q)) ∧
    (∀ s t : String, (compareValues (.vStr s) (.vStr t) < 0 ↔
        List.Lex (· < ·) s.data t.data) ∧
      (compareValues (.vStr s) (.vStr t) = 0 ↔ s = t)) ∧
    (∀ a b : Bool, (compareValues (.vBool a) (.vBool b) < 0 ↔ a = false ∧ b = true) ∧
      (compareValues (.vBool a) (.vBool b) = 0 ↔ a = b)) ∧
    (compareValues .vNull .vNull = 0 ∧
      ∀ v : Value, v ≠ .vNull → compareValues .vNull v = -1 ∧ compareValues v .vNull = 1) ∧
    (∀ l r : Value,
      (l.isStrVal = true → r.isStrVal = false → r ≠ .vNull → compareValues l r = -1) ∧
      (l.isIntVal = true → r.isIntVal = false → r.isFloatVal = false → r ≠ .vNull →
        compareValues l r = -1) ∧
      (l.isFloatVal = true → r.isIntVal = false → r.isFloatVal = false → r ≠ .vNull →
        compareValues l r = -1) ∧
      (l.isBoolVal = true → r.isBoolVal = false → r ≠ .vNull → compareValues l r = -1)) ∧
    (∀ l r : Value, l.isCollVal = true → r ≠ .vNull →
      compareValues l r = strCmp (formatValue l) (formatValue r)) ∧
    (∀ l r : Value,
      binaryOp "<" l r = .vBool (decide (compareValues l r < 0)) ∧
      binaryOp ">" l r = .vBool (decide (compareValues l r > 0)) ∧
      binaryOp "<=" l r = .vBool (decide (compareValues l r ≤ 0)) ∧
      binaryOp ">=" l r = .vBool (decide (compareValues l r ≥ 0)) ∧
      binaryOp "==" l r = .vBool (decide (compareValues l r = 0)) ∧
      binaryOp "!=" l r = .vBool (decide (compareValues l r ≠ 0))) := by
  refine ⟨?_, ?_, ?_, ?_, ?_, ?_, ?_, ?_, ?_, ?_⟩
  · intro a b
    exact ⟨by simp only [compareValues]; exact cmp3_neg_iff a b,
           by simp only [compareValues]; exact cmp3_eq_iff a b⟩
  · intro a q
    exact ⟨by simp only [compareValues]; exact cmp3_neg_iff _ _,
           by simp only [compareValues]; exact cmp3_eq_iff _ _⟩
  · intro q a
    exact ⟨by simp only [compareValues]; exact cmp3_neg_iff _ _,
           by simp only [compareValues]; exact cmp3_eq_iff _ _⟩
  · intro p q
    exact ⟨by simp only [compareValues]; exact cmp3_neg_iff _ _,
           by simp only [compareValues]; exact cmp3_eq_iff _ _⟩
  · intro s t
    constructor
    · simp only [compareValues, strCmp]
      exact charListCmp_neg_iff _ _
    · simp only [compareValues, strCmp]
      rw [charListCmp_eq_zero_iff]
      exact ⟨fun h => String.ext h, fun h => by rw [h]⟩
  · intro a b
    cases a <;> cases b <;> exact ⟨by decide, by decide⟩
  · refine ⟨rfl, ?_⟩
    intro v hv
    cases v with
    | vNull => exact absurd rfl hv
    | vBool b => exact ⟨rfl, rfl⟩
    | vInt n => exact ⟨rfl, rfl⟩
    | vFloat q => exact ⟨rfl, rfl⟩
    | vStr s => exact ⟨rfl, rfl⟩
    | vList xs => exact ⟨rfl, rfl⟩
    | vMap es => exact ⟨rfl, rfl⟩
    | vDur d => exact ⟨rfl, rfl⟩
  · intro l r
    refine ⟨?_, ?_, ?_, ?_⟩
    · intro hl h1 hr
      cases l <;> simp [Value.isStrVal] at hl
      cases r
      case vNull => exact absurd rfl hr
      case vStr => simp [Value.isStrVal] at h1
      all_goals rfl
    · intro hl h1 h2 hr
      cases l <;> simp [Value.isIntVal] at hl
      cases r
      case vNull => exact absurd rfl hr
      case vInt => simp [Value.isIntVal] at h1
      case vFloat => simp [Value.isFloatVal] at h2
      all_goals rfl
    · intro hl h1 h2 hr
      cases l <;> simp [Value.isFloatVal] at hl
      cases r
      case vNull => exact absurd rfl hr
      case vInt => simp [Value.isIntVal] at h1
      case vFloat => simp [Value.isFloatVal] at h2
      all_goals rfl
    · intro hl h1 hr
      cases l <;> simp [Value.isBoolVal] at hl
      cases r
      case vNull => exact absurd rfl hr
      case vBool => simp [Value.isBoolVal] at h1
      all_goals rfl
  · intro l r hl hr
    cases l <;> simp [Value.isCollVal] at hl
    all_goals cases r
    all_goals first
      | exact absurd rfl hr
      | rfl
  · intro l r
    exact ⟨rfl, rfl, rfl, rfl, rfl, rfl⟩

/-- C6: refutation of the original mismatched-type clause.  The left
operand `[]` (an empty list) against the integer 42 is an incomparable
mismatched pair, yet the evaluator renders the pair as "[]" versus "42"
and finds the left operand GREATER: the expression `[] < 42` evaluates
to false, `[] > 42` evaluates to true, and `compareValues` returns 1,
contradicting the claim that ordered comparisons treat a mismatched left
operand as less-than. -/
theorem C6_counterexample :
    evalExpr extStub newEvaluator
        (.binaryExpr "<" .emptyArrayLit (.numberLit (some 42) none)) = .vBool false ∧
    evalExpr extStub newEvaluator
        (.binaryExpr ">" .emptyArrayLit (.numberLit (some 42) none)) = .vBool true ∧
    compareValues (.vList []) (.vInt 42) = 1 :=
  ⟨rfl, rfl, rfl⟩

/-- Witness for C6: the corrected semantics applied at concrete values —
a string left operand below a mismatched integer, the default formatted
comparison for a list left operand, and an integer above null. -/
theorem C6_witness :
    compareValues (.vStr "a") (.vInt 1) = -1 ∧
    compareValues (.vList []) (.vInt 42) =
      strCmp (formatValue (.vList [])) (formatValue (.vInt 42)) ∧
    compareValues (.vInt 3) .vNull = 1 :=
  ⟨(C6_compare_semantics.2.2.2.2.2.2.2.1 (.vStr "a") (.vInt 1)).1 rfl rfl
      (fun h => Value.noConfusion h),
    C6_compare_semantics.2.2.2.2.2.2.2.2.1 (.vList []) (.vInt 42) rfl
      (fun h => Value.noConfusion h),
    ((C6_compare_semantics.2.2.2.2.2.2.1).2 (.vInt 3) (fun h => Value.noConfusion h)).2⟩

end Haiku

namespace Haiku

/-- Splitting off a fully-satisfying prefix: `takeWhile` returns exactly
that prefix when the first character after it (if any) fails the
predicate. -/
theorem takeWhileAppendAll {p : Char → Bool} : ∀ (run rest : List Char),
    (∀ c ∈ run, p c = true) → (∀ c, rest.head? = some c → p c = false) →
    (run ++ rest).takeWhile p = run := by
  intro run
  induction run with
  | nil =>
    intro rest _ hr
    cases rest with
    | nil => rfl
    | cons c t => simp [List.takeWhile_cons, hr c rfl]
  | cons a run' ih =>
    intro rest hall hr
    have ha : p a = true := hall a (by simp)
    simp only [List.cons_append, List.takeWhile_cons, ha, if_pos]
    rw [ih rest (fun c hm => hall c (by simp [hm])) hr]

/-- One scanning step of `interpolateGo` on a `$` followed by a maximal
nonempty identifier/dot run: the run is resolved and replaced by the
rendered value, and scanning resumes after the run. -/
theorem interpolateGo_step (ext : Externals) (e : Evaluator) (fuel : Nat)
    (run rest : List Char) (hne : run ≠ [])
    (hall : ∀ c ∈ run, (evalIsIdentChar c || c = '.') = true)
    (hr : ∀ c, rest.head? = some c → (evalIsIdentChar c || c = '.') = false) :
    interpolateGo ext e (fuel + 1) ('$' :: (run ++ rest)) =
      (formatValue (resolveVarPath ext e (String.mk run))).data ++
        interpolateGo ext e fuel rest := by
  have htw : (run ++ rest).takeWhile (fun x => evalIsIdentChar x || x = '.') = run :=
    takeWhileAppendAll run rest hall hr
  have hdr : (run ++ rest).drop run.length = rest := List.drop_left run rest
  cases run with
  | nil => exact absurd rfl hne
  | cons r rs =>
    simp only [interpolateGo, if_pos rfl, htw, List.isEmpty_cons, hdr]
    simp

/-- Resolution of a plain variable path that is absent from the scope
chain returns the original dollar-prefixed text. -/
theorem resolveVarPath_miss (ext : Externals) (e : Evaluator) (path name : String)
    (restSeg : List String) (hsplit : goSplitDot path = name :: restSeg)
    (hname : name ≠ "_") (henv : name = "env" → restSeg = [])
    (hget : e.scope.get name = none) :
    resolveVarPath ext e path = .vStr ("$" ++ path) := by
  simp only [resolveVarPath, hsplit]
  by_cases h2 : name = "env"
  · subst h2
    simp [hname, henv rfl, hget]
  · simp [hname, h2, hget]

/-- C7, corrected fail-soft interpolation.  As claimed, every maximal
nonempty run of identifier/dot characters after a `$` is resolved as a
variable path and replaced by the Go `%v` text of the result, scanning
resumes after the inserted text, dollar-free text passes through
unchanged, and a plain variable path missing from every scope reproduces
the original dollar-prefixed text (the re-inserted text is skipped, not
rescanned).  Contrary to the claim, the other two resolution failures do
not leave the original text in place: a `$_` path with no previous
response resolves to nil and is replaced by the text `<nil>`, and a
`$env.X` path always resolves to the environment lookup, so an unset
variable (empty lookup) is replaced by the empty string.  No failure
raises an error: resolution is total. -/
theorem C7_interpolation_fail_soft :
    (∀ (ext : Externals) (e : Evaluator) (path name : String) (restSeg : List String),
      goSplitDot path = name :: restSeg → name ≠ "_" → (name = "env" → restSeg = []) →
      e.scope.get name = none → resolveVarPath ext e path = .vStr ("$" ++ path)) ∧
    (∀ (ext : Externals) (e : Evaluator) (path : String) (restSeg : List String),
      goSplitDot path = "_" :: restSeg → e.prevResponse = none →
      resolveVarPath ext e path = .vNull ∧
        formatValue (resolveVarPath ext e path) = "<nil>") ∧
    (∀ (ext : Externals) (e : Evaluator) (path p1 : String) (restSeg : List String),
      goSplitDot path = "env" :: p1 :: restSeg →
      resolveVarPath ext e path = .vStr (ext.getenv p1)) ∧
    (∀ (ext : Externals) (e : Evaluator) (fuel : Nat) (run rest : List Char),
      run ≠ [] → (∀ c ∈ run, (evalIsIdentChar c || c = '.') = true) →
      (∀ c, rest.head? = some c → (evalIsIdentChar c || c = '.') = false) →
      interpolateGo ext e (fuel + 1) ('$' :: (run ++ rest)) =
        (formatValue (resolveVarPath ext e (String.mk run))).data ++
          interpolateGo ext e fuel rest) ∧
    (∀ (ext : Externals) (e : Evaluator) (fuel : Nat) (run rest : List Char)
      (name : String) (restSeg : List String),
      run ≠ [] → (∀ c ∈ run, (evalIsIdentChar c || c = '.') = true) →
      (∀ c, rest.head? = some c → (evalIsIdentChar c || c = '.') = false) →
      goSplitDot (String.mk run) = name :: restSeg → name ≠ "_" →
      (name = "env" → restSeg = []) → e.scope.get name = none →
      interpolateGo ext e (fuel + 1) ('$' :: (run ++ rest)) =
        '$' :: (run ++ interpolateGo ext e fuel rest)) ∧
    (∀ (ext : Externals) (e : Evaluator) (s : String), (∀ c ∈ s.data, c ≠ '$') →
      interpolateString ext e s = s) := by
  refine ⟨?_, ?_, ?_, ?_, ?_, ?_⟩
  · exact resolveVarPath_miss
  · intro ext e path restSeg hsplit hprev
    constructor
    · simp [resolveVarPath, hsplit, hprev]
    · simp [resolveVarPath, hsplit, hprev, formatValue]
  · intro ext e path p1 restSeg hsplit
    simp [resolveVarPath, hsplit]
  · exact interpolateGo_step
  · intro ext e fuel run rest name restSeg hne hall hr hsplit hname henv hget
    rw [interpolateGo_step ext e fuel run rest hne hall hr,
      resolveVarPath_miss ext e (String.mk run) name restSeg hsplit hname henv hget]
    simp [formatValue]
  · exact interpolateString_no_dollar

/-- C7, refutation of the uniform leave-in-place clause: with no
previous response the text `$_.tok` is replaced by `<nil>`, and with an
empty environment lookup the text `$env.FOO` is replaced by the empty
string — neither failing path leaves the original text.  A resolvable
`$_.status` path and an unresolvable plain `$missing` path behave as
claimed. -/
theorem C7_counterexample :
    interpolateString extStub newEvaluator "x $_.tok y" = "x <nil> y" ∧
    interpolateString extStub
        { newEvaluator with prevResponse := some [("status", .vInt 200)] }
        "ok $_.status!" = "ok 200!" ∧
    interpolateString extStub newEvaluator "a $env.FOO b" = "a  b" ∧
    interpolateString extStub newEvaluator "keep $missing here" = "keep $missing here" :=
  ⟨rfl, rfl, rfl, rfl⟩

/-- Witness for C7: the fail-soft laws applied at concrete paths and a
concrete one-step scan. -/
theorem C7_witness :
    resolveVarPath extStub newEvaluator "nope" = .vStr "$nope" ∧
    resolveVarPath extStub newEvaluator "_.tok" = .vNull ∧
    resolveVarPath extStub newEvaluator "env.FOO" = .vStr (extStub.getenv "FOO") ∧
    interpolateGo extStub newEvaluator 1 ('$' :: (['a'] ++ [])) =
      (formatValue (resolveVarPath extStub newEvaluator (String.mk ['a']))).data ++
        interpolateGo extStub newEvaluator 0 [] :=
  ⟨C7_interpolation_fail_soft.1 extStub newEvaluator "nope" "nope" [] rfl
      (by decide) (fun _ => rfl) rfl,
    (C7_interpolation_fail_soft.2.1 extStub newEvaluator "_.tok" ["tok"] rfl rfl).1,
    C7_interpolation_fail_soft.2.2.1 extStub newEvaluator "env.FOO" "FOO" [] rfl,
    C7_interpolation_fail_soft.2.2.2.1 extStub newEvaluator 0 ['a'] []
      (fun h => List.noConfusion h) (by decide) (fun c h => Option.noConfusion h)⟩

end Haiku

namespace Haiku

/-- The body of the checked loop: the request statement `get $i`. -/
def c5Body : List Statement := [.request "get" (.varRef "i" []) none none none]

/-- The checked statement: the sequential loop `for $i in 5` around
`get $i`. -/
def c5Loop : Statement := .forStmt "i" "" (.numberLit (some 5) none) c5Body false 0

/-- The descriptor synthesized for `get $i` at item value `k` under the
default timeout `d`. -/
def c5Req (d k : Int) : Request := [("get", .vInt k), ("timeout", .vDur d)]

/-- Threads the previous-response value through the loop: after a
nonempty item list it is the last iteration's descriptor. -/
def c5Last (d : Int) (p : Option (List (String × Value))) : List Int →
    Option (List (String × Value))
  | [] => p
  | v :: vs => c5Last d (some (c5Req d v)) vs

/-- Token stream of the source text `for 3` (simplified numeric form,
empty body). -/
def c5ForToks : List V2Tok :=
  [⟨.FOR, "for", 1, 1⟩, ⟨.INT, "3", 1, 5⟩, ⟨.NEWLINE, "", 1, 6⟩, ⟨.EOF, "", 2, 0⟩]

/-- Sequential iteration law for the `get $i` body: each item runs the
body in a fresh child scope binding the item variable, synthesizes one
descriptor, restores the enclosing scope, and the descriptors accumulate
in item order. -/
theorem c5_forItems (ext : Externals) :
    ∀ (vals : List Int) (fuel : Nat) (e : Evaluator) (idx : Nat),
      e.requestCallback = none → 0 < e.defaultTimeout → vals.length + 1 ≤ fuel →
      evalForItems ext fuel e "i" "" c5Body (vals.map Value.vInt) idx =
        (none, { e with
          collectedRequests := e.collectedRequests ++ vals.map (c5Req e.defaultTimeout),
          prevResponse := c5Last e.defaultTimeout e.prevResponse vals }) := by
  intro vals
  induction vals with
  | nil =>
    intro fuel e idx hcb hdt hf
    cases fuel with
    | zero => simp at hf
    | succ f =>
      simp only [List.map_nil, evalForItems, List.append_nil, c5Last]
  | cons v vs ih =>
    intro fuel e idx hcb hdt hf
    cases fuel with
    | zero =>
      simp only [List.length_cons] at hf
      omega
    | succ f =>
      cases f with
      | zero =>
        simp only [List.length_cons] at hf
        omega
      | succ g =>
        have hf' : vs.length + 1 ≤ g + 1 := by
          simp only [List.length_cons] at hf
          omega
        have hbody : evalBodyStmts ext (g + 1)
            { e with scope := (Scope.newScope e.scope).set "i" (.vInt v) } c5Body =
            (none, { e with
              scope := (Scope.newScope e.scope).set "i" (.vInt v),
              collectedRequests := e.collectedRequests ++ [c5Req e.defaultTimeout v],
              prevResponse := some (c5Req e.defaultTimeout v) }) := by
          simp only [c5Body, evalBodyStmts, evalRequest, evalExpr, evalVarRef]
          simp only [hcb]
          simp [hdt, c5Req, Scope.newScope, Scope.set, Scope.get, setAssoc, lookupAssoc]
        simp only [List.map_cons, evalForItems,
          show (("" != "") : Bool) = false from by decide, Bool.false_eq_true, if_false]
        rw [hbody]
        show evalForItems ext (g + 1)
            { e with
              collectedRequests := e.collectedRequests ++ [c5Req e.defaultTimeout v],
              prevResponse := some (c5Req e.defaultTimeout v) } "i" "" c5Body
            (List.map Value.vInt vs) (idx + 1) =
          (none, { e with
            collectedRequests := e.collectedRequests ++
              List.map (c5Req e.defaultTimeout) (v :: vs),
            prevResponse := c5Last e.defaultTimeout e.prevResponse (v :: vs) })
        rw [ih (g + 1)
          { e with
            collectedRequests := e.collectedRequests ++ [c5Req e.defaultTimeout v],
            prevResponse := some (c5Req e.defaultTimeout v) } (idx + 1) hcb hdt hf']
        simp [List.append_assoc, c5Last]

/-- C5, the sequential numeric loop.  First conjunct: on any evaluator
without a request callback and with a positive default timeout,
evaluating `for $i in 5` around `get $i` succeeds and appends exactly
five descriptors whose URL values are 0,1,2,3,4 in strict ascending
order, with the scope unchanged afterwards (each iteration's binding
lives in a discarded child scope) and the previous response left at the
fifth descriptor.  Second conjunct: a nonnegative integer iterable
always expands to the range 0..N-1.  Third conjunct: the parser expands
the simplified numeric form `for 3` to a loop whose item variable is the
default `index`. -/
theorem C5_sequential_numeric_loop :
    (∀ (ext : Externals) (e : Evaluator), e.requestCallback = none → 0 < e.defaultTimeout →
      evalStatementCollect ext 20 e c5Loop =
        (none, { e with
          collectedRequests := e.collectedRequests ++
            [c5Req e.defaultTimeout 0, c5Req e.defaultTimeout 1, c5Req e.defaultTimeout 2,
             c5Req e.defaultTimeout 3, c5Req e.defaultTimeout 4],
          prevResponse := some (c5Req e.defaultTimeout 4) })) ∧
    (∀ n : Nat, extractItems (.vInt (n : Int)) =
      .ok ((List.range n).map (fun i => .vInt (i : Int)))) ∧
    parseTokens 10 c5ForToks =
      some [.forStmt "index" "" (.numberLit (some 3) none) [] false 0] := by
  refine ⟨?_, ?_, ?_⟩
  · intro ext e hcb hdt
    have h0 : evalStatementCollect ext 20 e c5Loop =
        evalForItems ext 18 e "i" "" c5Body (([0, 1, 2, 3, 4] : List Int).map Value.vInt) 0 :=
      rfl
    rw [h0, c5_forItems ext [0, 1, 2, 3, 4] 18 e 0 hcb hdt (by simp)]
    simp [c5Last]
  · intro n
    have h : ¬ ((n : Int) < 0) := by omega
    simp only [extractItems, if_neg h, Int.toNat_natCast]
  · rfl

/-- Witness for C5: the loop law applied to the fresh evaluator, whose
default timeout (30s in nanoseconds) is positive. -/
theorem C5_witness :
    evalStatementCollect extStub 20 newEvaluator c5Loop =
      (none, { newEvaluator with
        collectedRequests := newEvaluator.collectedRequests ++
          [c5Req newEvaluator.defaultTimeout 0, c5Req newEvaluator.defaultTimeout 1,
           c5Req newEvaluator.defaultTimeout 2, c5Req newEvaluator.defaultTimeout 3,
           c5Req newEvaluator.defaultTimeout 4],
        prevResponse := some (c5Req newEvaluator.defaultTimeout 4) }) :=
  C5_sequential_numeric_loop.1 extStub newEvaluator rfl (by decide)

end Haiku

namespace Haiku

/-- Occurrences of a token type in a token list. -/
def countTok (ty : TokType) (ts : List Token) : Nat :=
  (ts.filter (fun t => t.type = ty)).length

/-- Structural lexer invariant: the indentation stack is never empty and
every queued pending token is a DEDENT. -/
def lexWF (l : LexState) : Prop :=
  l.indentStack ≠ [] ∧ ∀ t ∈ l.pending, t.type = .DEDENT

/-- Open indentation debt: levels above the base one, plus queued
DEDENTs. -/
def lexBal (l : LexState) : Nat :=
  (l.indentStack.length - 1) + l.pending.length

/-- Contribution of one emitted token to the INDENT/DEDENT balance. -/
def tokDelta : TokType → Int
  | .INDENT => 1
  | .DEDENT => -1
  | _ => 0

/-- The dedent pop loop pops exactly as many levels as it counts, never
empties a nonempty stack, and pops nothing exactly when it returns the
stack unchanged. -/
theorem dedentPop_spec : ∀ (stack : List Nat) (indent : Nat),
    (dedentPop stack indent).1.length + (dedentPop stack indent).2 = stack.length ∧
    (stack ≠ [] → (dedentPop stack indent).1 ≠ []) ∧
    ((dedentPop stack indent).2 = 0 → (dedentPop stack indent).1 = stack) := by
  intro stack indent
  induction stack with
  | nil => simp [dedentPop]
  | cons top rest ih =>
    cases rest with
    | nil => simp [dedentPop]
    | cons r1 rest' =>
      by_cases h : top > indent
      · simp only [dedentPop, if_pos h]
        refine ⟨?_, ?_, ?_⟩
        · have h1 := ih.1
          simp only [List.length_cons] at h1 ⊢
          omega
        · intro _
          exact ih.2.1 (by simp)
        · intro h0
          omega
      · simp [dedentPop, if_neg h]

end Haiku

namespace Haiku

/-- Postcondition of one indentation-handling call, relative to the
entry indentation stack `S`. -/
def hiPost (S : List Nat) : Option Token × LexState → Prop
  | (none, l') => l'.pending = [] ∧ l'.indentStack = S
  | (some t, l') =>
      (t.type = .INDENT ∧ l'.pending = [] ∧ l'.indentStack.length = S.length + 1) ∨
      (t.type = .DEDENT ∧ (∀ u ∈ l'.pending, u.type = .DEDENT) ∧ l'.indentStack ≠ [] ∧
        l'.indentStack.length + l'.pending.length + 1 = S.length)

/-- Transport of `hiPost` along an equal entry stack. -/
theorem hiPost_of_stack_eq {S T : List Nat} (h : T = S) {r : Option Token × LexState}
    (hr : hiPost T r) : hiPost S r := h ▸ hr

/-- `handleIndentation` satisfies its postcondition on well-formed
entry states. -/
theorem handleIndent_spec : ∀ (fuel : Nat) (l : LexState),
    l.pending = [] → l.indentStack ≠ [] →
    hiPost l.indentStack (handleIndent fuel l) := by
  intro fuel
  induction fuel with
  | zero =>
    intro l hp hs
    exact ⟨hp, rfl⟩
  | succ f ih =>
    intro l hp hs
    simp only [handleIndent, advanceN, hp, List.nil_append]
    split
    · exact ⟨rfl, rfl⟩
    · split_ifs
      all_goals
        first
        | exact ⟨rfl, rfl⟩
        | (refine hiPost_of_stack_eq ?_ (ih _ ?_ ?_) <;> first | rfl | exact hs)
        | exact Or.inl ⟨rfl, rfl, by simp⟩
        | skip
      -- remaining: the comment-line continuation and the queued-DEDENT
      -- dispatch, each guarded by its own nested match
      all_goals split
      all_goals
        first
        | exact ⟨rfl, rfl⟩
        | (split_ifs <;>
            first
            | exact ⟨rfl, rfl⟩
            | (refine hiPost_of_stack_eq ?_ (ih _ ?_ ?_) <;> first | rfl | exact hs))
        | skip
      -- remaining: the two arms of the queued-DEDENT dispatch
      case _ t restP heq =>
        have hmem : ∀ u ∈ t :: restP, u.type = TokType.DEDENT := by
          intro u hu
          rw [← heq] at hu
          obtain ⟨i, _, hi⟩ := List.mem_map.mp hu
          rw [← hi]
        obtain ⟨hd1, hd2, hd3⟩ := dedentPop_spec l.indentStack
          (List.foldl (fun a c => a + (if c = ' ' then 1 else 4)) 0
            (List.takeWhile (fun c => c = ' ' || c = '\t') l.input))
        have hlen := congrArg List.length heq
        simp only [List.length_map, List.length_range, List.length_cons] at hlen
        refine Or.inr ⟨hmem t (by simp), ?_, hd2 hs, ?_⟩
        · intro u hu
          exact hmem u (by simp [hu])
        · dsimp only
          omega
      case _ heq =>
        obtain ⟨hd1, hd2, hd3⟩ := dedentPop_spec l.indentStack
          (List.foldl (fun a c => a + (if c = ' ' then 1 else 4)) 0
            (List.takeWhile (fun c => c = ' ' || c = '\t') l.input))
        have hlen := congrArg List.length heq
        simp only [List.length_map, List.length_range, List.length_nil] at hlen
        exact ⟨rfl, hd3 hlen⟩

end Haiku

namespace Haiku

/-- Keyword lookup never yields a structural token. -/
theorem lookupKeyword_flat (s : String) :
    tokDelta (lookupKeyword s) = 0 ∧ lookupKeyword s ≠ .EOF := by
  rw [lookupKeyword]
  by_cases h1 : s = "import"
  · rw [if_pos h1]
    exact ⟨rfl, by decide⟩
  rw [if_neg h1]
  by_cases h2 : s = "for"
  · rw [if_pos h2]
    exact ⟨rfl, by decide⟩
  rw [if_neg h2]
  by_cases h3 : s = "in"
  · rw [if_pos h3]
    exact ⟨rfl, by decide⟩
  rw [if_neg h3]
  by_cases h4 : s = "get"
  · rw [if_pos h4]
    exact ⟨rfl, by decide⟩
  rw [if_neg h4]
  by_cases h5 : s = "post"
  · rw [if_pos h5]
    exact ⟨rfl, by decide⟩
  rw [if_neg h5]
  by_cases h6 : s = "put"
  · rw [if_pos h6]
    exact ⟨rfl, by decide⟩
  rw [if_neg h6]
  by_cases h7 : s = "delete"
  · rw [if_pos h7]
    exact ⟨rfl, by decide⟩
  rw [if_neg h7]
  by_cases h8 : s = "patch"
  · rw [if_pos h8]
    exact ⟨rfl, by decide⟩
  rw [if_neg h8]
  by_cases h9 : s = "head"
  · rw [if_pos h9]
    exact ⟨rfl, by decide⟩
  rw [if_neg h9]
  by_cases h10 : s = "options"
  · rw [if_pos h10]
    exact ⟨rfl, by decide⟩
  rw [if_neg h10]
  by_cases h11 : s = "headers"
  · rw [if_pos h11]
    exact ⟨rfl, by decide⟩
  rw [if_neg h11]
  by_cases h12 : s = "body"
  · rw [if_pos h12]
    exact ⟨rfl, by decide⟩
  rw [if_neg h12]
  by_cases h13 : s = "true"
  · rw [if_pos h13]
    exact ⟨rfl, by decide⟩
  rw [if_neg h13]
  by_cases h14 : s = "false"
  · rw [if_pos h14]
    exact ⟨rfl, by decide⟩
  rw [if_neg h14]
  by_cases h15 : s = "null"
  · rw [if_pos h15]
    exact ⟨rfl, by decide⟩
  rw [if_neg h15]
  by_cases h16 : s = "nil"
  · rw [if_pos h16]
    exact ⟨rfl, by decide⟩
  rw [if_neg h16]
  by_cases h17 : s = "_"
  · rw [if_pos h17]
    exact ⟨rfl, by decide⟩
  rw [if_neg h17]
  exact ⟨rfl, by decide⟩

/-- Balance contract of one scanning step, relative to the state `l1`
the step started from. -/
def ntmPost (l1 : LexState) (r : Token × LexState) : Prop :=
  lexWF r.2 ∧ ((lexBal r.2 : Int) = lexBal l1 + tokDelta r.1.type) ∧
    (r.1.type = .EOF → lexBal r.2 = 0)

/-- A scanning step that leaves stack and queue alone and emits a
non-structural token satisfies the balance contract. -/
theorem ntmFlat (l1 : LexState) (hp : l1.pending = []) (hs : l1.indentStack ≠ [])
    {t : Token} {l' : LexState} (hst : l'.indentStack = l1.indentStack)
    (hpd : l'.pending = l1.pending)
    (hd : tokDelta t.type = 0) (he : t.type ≠ .EOF) :
    ntmPost l1 (t, l') := by
  refine ⟨⟨hst ▸ hs, fun u hu => ?_⟩, ?_, fun h => absurd h he⟩
  · rw [hpd, hp] at hu
    cases hu
  · rw [lexBal, lexBal, hst, hpd, hd]
    simp

/-- The end-of-data dispatch: with levels still open the top is popped
and a DEDENT emitted; otherwise EOF leaves the (already drained)
balance at zero. -/
theorem ntmEnd (l1 : LexState) (line col : Nat) (hp : l1.pending = [])
    (hs : l1.indentStack ≠ []) :
    ntmPost l1 (match l1.indentStack with
      | _ :: r1 :: rest => ((⟨.DEDENT, "", line, col⟩ : Token),
          { l1 with indentStack := r1 :: rest })
      | _ => ((⟨.EOF, "", line, col⟩ : Token), l1)) := by
  cases hstk : l1.indentStack with
  | nil => exact absurd hstk hs
  | cons a r =>
    cases r with
    | nil =>
      refine ⟨⟨hs, fun u hu => ?_⟩, ?_, fun _ => ?_⟩
      · rw [hp] at hu
        cases hu
      · simp [lexBal, tokDelta, hstk, hp]
      · simp [lexBal, hstk, hp]
    | cons b r' =>
      refine ⟨⟨by simp, fun u hu => ?_⟩, ?_, fun h => ?_⟩
      · simp only [hp] at hu
        cases hu
      · simp only [lexBal, tokDelta, hstk, hp, List.length_cons, List.length_nil]
        push_cast
        omega
      · simp [tokDelta] at h

/-- The main character switch preserves well-formedness, never touches
the balance except for the end-of-data DEDENT draining, and emits EOF
only with the balance fully drained. -/
theorem nextTokenMain_spec (l0 : LexState) (hp : l0.pending = [])
    (hs : l0.indentStack ≠ []) :
    ntmPost l0 (nextTokenMain l0) := by
  simp only [nextTokenMain]
  have hpost : ntmPost l0 = ntmPost (skipSpacesL l0) := funext fun r => rfl
  rw [hpost]
  have hp1 : (skipSpacesL l0).pending = [] := hp
  have hs1 : (skipSpacesL l0).indentStack ≠ [] := hs
  generalize hg : skipSpacesL l0 = l1 at hp1 hs1 ⊢
  clear hp hs hpost hg
  by_cases hnul : l1.ch = nulChar
  · rw [if_pos hnul]
    exact ntmEnd l1 l1.line l1.column hp1 hs1
  rw [if_neg hnul]
  by_cases h1 : l1.ch = '\n'
  · rw [if_pos h1]
    exact ntmFlat l1 hp1 hs1 rfl rfl rfl (by intro hcontra; cases hcontra)
  rw [if_neg h1]
  by_cases h2 : l1.ch = '\r'
  · rw [if_pos h2]
    exact ntmFlat l1 hp1 hs1 (by split <;> rfl) (by split <;> rfl) rfl (by intro hcontra; cases hcontra)
  rw [if_neg h2]
  by_cases h3 : l1.ch = '#'
  · rw [if_pos h3]
    exact ntmFlat l1 hp1 hs1 rfl rfl rfl (by intro hcontra; cases hcontra)
  rw [if_neg h3]
  by_cases h4 : l1.ch = '@'
  · rw [if_pos h4]
    exact ntmFlat l1 hp1 hs1 rfl rfl rfl (by intro hcontra; cases hcontra)
  rw [if_neg h4]
  by_cases h5 : l1.ch = '$'
  · rw [if_pos h5]
    exact ntmFlat l1 hp1 hs1 rfl rfl rfl (by intro hcontra; cases hcontra)
  rw [if_neg h5]
  by_cases h6 : l1.ch = '.'
  · rw [if_pos h6]
    exact ntmFlat l1 hp1 hs1 rfl rfl rfl (by intro hcontra; cases hcontra)
  rw [if_neg h6]
  by_cases h7 : l1.ch = '"'
  · rw [if_pos h7]
    exact ntmFlat l1 hp1 hs1 rfl rfl rfl (by intro hcontra; cases hcontra)
  rw [if_neg h7]
  by_cases h8 : l1.ch = '['
  · rw [if_pos h8]
    by_cases h8b : l1.peek = ']'
    · rw [if_pos h8b]
      exact ntmFlat l1 hp1 hs1 rfl rfl rfl (by intro hcontra; cases hcontra)
    · rw [if_neg h8b]
      exact ntmFlat l1 hp1 hs1 rfl rfl rfl (by intro hcontra; cases hcontra)
  rw [if_neg h8]
  by_cases h9 : l1.ch = '{'
  · rw [if_pos h9]
    by_cases h9b : l1.peek = '}'
    · rw [if_pos h9b]
      exact ntmFlat l1 hp1 hs1 rfl rfl rfl (by intro hcontra; cases hcontra)
    · rw [if_neg h9b]
      exact ntmFlat l1 hp1 hs1 rfl rfl rfl (by intro hcontra; cases hcontra)
  rw [if_neg h9]
  by_cases h10 : l1.ch = '-'
  · rw [if_pos h10]
    by_cases h10b : l1.peek = '-'
    · rw [if_pos h10b]
      by_cases h10c : (l1.input.drop 2).headD nulChar = '-'
      · rw [if_pos h10c]
        exact ntmFlat l1 hp1 hs1 rfl rfl rfl (by intro hcontra; cases hcontra)
      · rw [if_neg h10c]
        exact ntmFlat l1 hp1 hs1 rfl rfl rfl (by intro hcontra; cases hcontra)
    · rw [if_neg h10b]
      by_cases h10d : lexIsDigit l1.peek = true
      · rw [if_pos h10d]
        exact ntmFlat l1 hp1 hs1 rfl rfl (by split <;> rfl) (by split <;> intro hcontra <;> cases hcontra)
      · rw [if_neg h10d]
        exact ntmFlat l1 hp1 hs1 rfl rfl rfl (by intro hcontra; cases hcontra)
  rw [if_neg h10]
  by_cases h11 : lexIsDigit l1.ch = true
  · rw [if_pos h11]
    exact ntmFlat l1 hp1 hs1 rfl rfl (by split <;> rfl) (by split <;> intro hcontra <;> cases hcontra)
  rw [if_neg h11]
  by_cases h12 : lexIsIdentStart l1.ch = true
  · rw [if_pos h12]
    by_cases h12b : (advanceN l1 (readIdentLit l1.input).length).ch = btChar
    · rw [if_pos h12b]
      exact ntmFlat l1 hp1 hs1 rfl rfl rfl (by intro hcontra; cases hcontra)
    · rw [if_neg h12b]
      exact ntmFlat l1 hp1 hs1 rfl rfl (lookupKeyword_flat _).1 (lookupKeyword_flat _).2
  rw [if_neg h12]
  exact ntmFlat l1 hp1 hs1 rfl rfl rfl (by intro hcontra; cases hcontra)

end Haiku

namespace Haiku

/-- `NextToken` preserves well-formedness; each emitted token moves the
balance by its delta, and an EOF token is emitted only with the balance
fully drained. -/
theorem nextToken_spec (l : LexState) (hwf : lexWF l) :
    lexWF (nextToken l).2 ∧
    ((lexBal (nextToken l).2 : Int) = lexBal l + tokDelta (nextToken l).1.type) ∧
    ((nextToken l).1.type = .EOF → lexBal (nextToken l).2 = 0) := by
  obtain ⟨hs, hpend⟩ := hwf
  cases hp : l.pending with
  | cons t rest =>
    simp only [nextToken, hp]
    have ht : t.type = .DEDENT := hpend t (by rw [hp]; exact List.mem_cons_self t rest)
    refine ⟨⟨hs, fun u hu => hpend u (by rw [hp]; exact List.mem_cons_of_mem _ hu)⟩, ?_, ?_⟩
    · rw [ht]
      simp only [lexBal, tokDelta, hp, List.length_cons]
      push_cast
      omega
    · intro h
      rw [ht] at h
      cases h
  | nil =>
    simp only [nextToken, hp]
    by_cases hals : l.atLineStart = true
    · rw [if_pos hals]
      have hh := handleIndent_spec (l.input.length + 1)
        { l with pending := [], atLineStart := false } rfl hs
      rcases hstep : handleIndent (l.input.length + 1)
          { l with pending := [], atLineStart := false }
        with ⟨r1, l''⟩
      rw [hstep] at hh
      dsimp only at hh
      clear hstep
      cases r1 with
      | some t =>
        simp only [hiPost] at hh
        rcases hh with ⟨hty, hpd, hlen⟩ | ⟨hty, hpd, hne, hlen⟩
        · have hpos : 0 < l.indentStack.length := List.length_pos.mpr hs
          have hpos2 : 0 < l''.indentStack.length := by omega
          refine ⟨⟨List.ne_nil_of_length_pos hpos2, fun u hu => ?_⟩, ?_, ?_⟩
          · rw [hpd] at hu
            cases hu
          · rw [hty]
            simp only [lexBal, tokDelta, hpd, hlen, hp, List.length_nil]
            push_cast
            omega
          · intro h
            rw [hty] at h
            cases h
        · have hpos : 0 < l''.indentStack.length := List.length_pos.mpr hne
          refine ⟨⟨hne, hpd⟩, ?_, ?_⟩
          · rw [hty]
            simp only [lexBal, tokDelta, hp, List.length_nil]
            push_cast
            omega
          · intro h
            rw [hty] at h
            cases h
      | none =>
        simp only [hiPost] at hh
        obtain ⟨hw, hb, he⟩ := nextTokenMain_spec l'' hh.1 (by rw [hh.2]; exact hs)
        refine ⟨hw, ?_, he⟩
        rw [hb]
        have hbb : lexBal l'' = lexBal l := by
          simp [lexBal, hh.2, hh.1, hp]
        rw [hbb]
    · rw [if_neg hals]
      exact nextTokenMain_spec l hp hs

/-- Token-type counting distributes over append. -/
theorem countTok_append (ty : TokType) (a b : List Token) :
    countTok ty (a ++ b) = countTok ty a + countTok ty b := by
  simp [countTok, List.filter_append]

/-- The DEDENT-minus-INDENT weight of a single token is the negated
balance delta. -/
theorem countTok_singleton_delta (t : Token) :
    (countTok .DEDENT [t] : Int) - countTok .INDENT [t] = - tokDelta t.type := by
  cases h : t.type <;> simp [countTok, h, tokDelta]

/-- The tokenize loop invariant: a successful run emits DEDENTs
exceeding INDENTs by exactly the open balance of the entry state. -/
theorem tokenizeAux_spec : ∀ (fuel : Nat) (l : LexState) (acc ts : List Token),
    lexWF l → tokenizeAux fuel l acc = some ts →
    (countTok .DEDENT ts : Int) - countTok .INDENT ts =
      (countTok .DEDENT acc : Int) - countTok .INDENT acc + lexBal l := by
  intro fuel
  induction fuel with
  | zero =>
    intro l acc ts _ h
    simp [tokenizeAux] at h
  | succ f ih =>
    intro l acc ts hwf h
    obtain ⟨hwf', hbal, heof⟩ := nextToken_spec l hwf
    simp only [tokenizeAux] at h
    by_cases he : (nextToken l).1.type = .EOF
    · rw [if_pos he] at h
      injection h with h
      subst h
      have h0 : lexBal l = 0 := by
        rw [he] at hbal
        simp only [tokDelta] at hbal
        have h1 := heof he
        omega
      have hD : countTok .DEDENT [(nextToken l).1] = 0 := by simp [countTok, he]
      have hI : countTok .INDENT [(nextToken l).1] = 0 := by simp [countTok, he]
      rw [countTok_append, countTok_append, hD, hI, h0]
      push_cast
      omega
    · rw [if_neg he] at h
      have hrec := ih (nextToken l).2 (acc ++ [(nextToken l).1]) ts hwf' h
      rw [hrec, countTok_append, countTok_append]
      have hsing := countTok_singleton_delta (nextToken l).1
      push_cast at hsing hrec hbal ⊢
      omega

end Haiku

namespace Haiku

/-- C1, the INDENT/DEDENT balance.  For every input text and any fuel,
a successful tokenization emits exactly as many DEDENT tokens as INDENT
tokens: each INDENT pushes one level, each DEDENT pops one, and at end
of input the EOF token is only emitted once every remaining open level
has been closed by a trailing DEDENT (the end-of-data DEDENT draining),
so the stack always balances back to its single base level. -/
theorem C1_indent_dedent_balance :
    ∀ (input : String) (fuel : Nat) (ts : List Token),
      tokenize fuel input = some ts →
      countTok .INDENT ts = countTok .DEDENT ts := by
  intro input fuel ts h
  have hwf : lexWF (lexNew input) := ⟨by simp [lexNew], by simp [lexNew]⟩
  have hh := tokenizeAux_spec fuel (lexNew input) [] ts hwf h
  have h0 : lexBal (lexNew input) = 0 := rfl
  have hD : countTok .DEDENT ([] : List Token) = 0 := rfl
  have hI : countTok .INDENT ([] : List Token) = 0 := rfl
  rw [h0, hD, hI] at hh
  omega

/-- The token stream of the two-line input with one indented block. -/
def c1Toks : List Token :=
  [⟨.IDENT, "a", 1, 1⟩, ⟨.NEWLINE, "\n", 1, 2⟩, ⟨.INDENT, "", 2, 3⟩,
   ⟨.IDENT, "b", 2, 2⟩, ⟨.NEWLINE, "\n", 2, 3⟩, ⟨.DEDENT, "", 3, 0⟩, ⟨.EOF, "", 3, 0⟩]

/-- Witness for C1: the balance law applied to a concrete indented
input, whose one INDENT is closed by one trailing DEDENT. -/
theorem C1_witness :
    tokenize 30 "a\n  b\n" = some c1Toks ∧
    countTok .INDENT c1Toks = countTok .DEDENT c1Toks :=
  ⟨rfl, C1_indent_dedent_balance "a\n  b\n" 30 c1Toks rfl⟩

end Haiku
